import Mathlib

/-!
Shallow embedding of the field state transition engine of the
`@react-hive/honey-form` library (TypeScript sources `src/field.ts`,
`src/hooks/use-honey-form.ts` and the type declarations).

Conventions of the embedding:
* JavaScript field values are modelled by the inductive `JSValue`;
  `JSValue.undefined` stands for the JS value `undefined` (so the source's
  `cleanValue: undefined` becomes `cleanValue = JSValue.undefined`).
  Numbers are restricted to integers; `JSValue.nan` models `NaN`.
* Error messages (`string | ReactElement`) are modelled by `Msg`:
  `Msg.str` for strings, `Msg.rich` for React elements (which are
  always truthy and are not strings).
* Promises are modelled by their eventual outcome (`PromiseOutcome`):
  resolution with a validation result, or rejection carrying the
  rejection error's `.message` string.
* The field collection is an ordered association list
  `List (String × FormField)`; JavaScript object key order is the list
  order.  In-place `__meta__` mutation via the shared meta object is
  modelled by updating the entry of the collection and by functions
  returning the updated collection next to their primary result.
* Callback-style side effects (`scheduleValidation`) are modelled by
  validators returning, next to their validation response, the list of
  field names they schedule for validation.
* The modules `validators.ts` and `helpers.ts` of the repository are not
  part of the given sources; their contributions (type-validator maps,
  built-in validator lists, child-form validation) enter the model as
  the explicit parameter structure `Collaborators`, and the few helpers
  with behaviour fixed by the specification are defined below with a
  `Modelled from the spec:` doc comment.
-/

/-- The error taxonomy of `HoneyFormFieldErrorType`
(`src/types/field.types.ts`). -/
inductive ErrorType where
  | required
  | invalid
  | server
  | min
  | max
  | minMax
deriving DecidableEq, Repr

/-- An error message: a plain string or a rich (React element) message
(`HoneyFormFieldErrorMessage`). -/
inductive Msg where
  | str (s : String)
  | rich (id : String)
deriving DecidableEq, Repr

/-- JavaScript truthiness of an error message: the empty string is falsy,
every other string and every rich message is truthy. -/
def Msg.truthy : Msg → Bool
  | .str s => s ≠ ""
  | .rich _ => true

/-- A structured field error `HoneyFormFieldError` (a type plus a message). -/
structure FieldError where
  type : ErrorType
  message : Msg
deriving DecidableEq, Repr

/-- Model of JavaScript values flowing through fields.  `undefined` is
`undefined`; numbers are restricted to integers, with `nan` for `NaN`. -/
inductive JSValue where
  | undefined
  | str (s : String)
  | num (n : Int)
  | nan
  | bool (b : Bool)
  | list (xs : List JSValue)

/-- The result of one field validation, `HoneyFormFieldValidationResult`:
a boolean, an error message, or a list of structured errors. -/
inductive ValidationResult where
  | ok (b : Bool)
  | msg (m : Msg)
  | errs (es : List FieldError)
deriving DecidableEq, Repr

/-- JavaScript truthiness of a validation result: `false` is falsy, the
empty string is falsy, arrays (even empty ones) are truthy. -/
def ValidationResult.truthy : ValidationResult → Bool
  | .ok b => b
  | .msg m => m.truthy
  | .errs _ => true

/-- Eventual outcome of a promise returned by a custom validator:
resolution with a validation result, or rejection whose error carries
the given `.message`. -/
inductive PromiseOutcome where
  | resolved (r : ValidationResult)
  | rejected (message : String)
deriving DecidableEq, Repr

/-- What a custom validator returns: a synchronous validation result, or
a promise (modelled by its eventual outcome). -/
inductive ValidatorResponse where
  | sync (r : ValidationResult)
  | promise (p : PromiseOutcome)
deriving DecidableEq, Repr

/-- The field types of `HoneyFormFieldType` (`src/types/field.types.ts`). -/
inductive FieldType where
  | string
  | numeric
  | number
  | email
  | checkbox
  | radio
  | file
  | object
  | nestedForms
deriving DecidableEq, Repr

/-- The category predicate `checkIfHoneyFormFieldIsInteractive`: the
interactive field types are `string`, `numeric`, `number` and `email`
(`HoneyFormInteractiveFieldType`). -/
def FieldType.isInteractive : FieldType → Bool
  | .string | .numeric | .number | .email => true
  | _ => false

/-- The category predicate `checkIfFieldIsPassive`: the passive field
types are `checkbox`, `radio` and `file` (`HoneyFormPassiveFieldType`). -/
def FieldType.isPassive : FieldType → Bool
  | .checkbox | .radio | .file => true
  | _ => false

/-- The category predicate `checkIfFieldIsObject`. -/
def FieldType.isObject : FieldType → Bool
  | .object => true
  | _ => false

/-- The category predicate `checkIfFieldIsNestedForms`. -/
def FieldType.isNestedForms : FieldType → Bool
  | .nestedForms => true
  | _ => false

/-- Aggregated form values (`HoneyFormValues`), a name-to-value map as
an association list; this is what `getFormValues` produces and what
predicates and validators receive in their execution context. -/
abbrev FormValues := List (String × JSValue)

/-- The `dependsOn` declaration of a field config
(`HoneyFormFieldDependsOn`): absent, a single field name, a list of
field names, or a predicate on the initiator field name, the field's
current clean value and the form values. -/
inductive DependsOn where
  | noDep
  | single (name : String)
  | many (names : List String)
  | pred (f : String → JSValue → FormValues → Bool)

/-- A custom validator (`config.validator`): from the sanitized field
value and the aggregated form values it yields a response, plus the list
of field names it passes to the `scheduleValidation` callback. -/
abbrev CustomValidator := JSValue → FormValues → ValidatorResponse × List String

/-- Configuration of one field, the part of `HoneyFormFieldConfig`
relevant to the state transition engine. -/
structure FieldConfig where
  fieldType : FieldType
  required : Bool := false
  defaultValue : JSValue := .undefined
  dependsOn : DependsOn := .noDep
  /-- The configured `errorMessages.invalid`, when present. -/
  invalidErrorMessage : Option Msg := none
  skipFn : Option (FormValues → Bool) := none
  validator : Option CustomValidator := none
  filter : Option (JSValue → JSValue) := none
  formatter : Option (JSValue → JSValue) := none

/-- One form field (`HoneyFormField`): configuration, value mirror
fields, error list, async-validation flag, and the scheduled-validation
meta flag.  The child forms' aggregate value (`getChildFormsValues`) is
modelled by the stored `childFormsValues`. -/
structure FormField where
  config : FieldConfig
  errors : List FieldError := []
  defaultValue : JSValue := .undefined
  rawValue : JSValue := .undefined
  cleanValue : JSValue := .undefined
  value : JSValue := .undefined
  isValidating : Bool := false
  isValidationScheduled : Bool := false
  childFormsValues : JSValue := .undefined

/-- The whole field collection, an ordered name-to-field map. -/
abbrev FormFields := List (String × FormField)

/-- Looks a field up by name (JavaScript `formFields[fieldName]`). -/
def getField (fs : FormFields) (name : String) : Option FormField :=
  (fs.find? (fun p => p.1 = name)).map Prod.snd

/-- Replaces the field stored under `name`, keeping the key order
(JavaScript `formFields[fieldName] = field`). -/
def setField (fs : FormFields) (name : String) (f : FormField) : FormFields :=
  fs.map (fun p => if p.1 = name then (p.1, f) else p)

/-- The key list of the collection (`Object.keys(formFields)`). -/
def fieldNames (fs : FormFields) : List String :=
  fs.map Prod.fst

/-- Modelled from the spec: the helper `getFormValues` (from the absent
`helpers.ts`) aggregates the committed value map of the form, one entry
per field, reading each field's display `value`. -/
def getFormValues (fs : FormFields) : FormValues :=
  fs.map (fun p => (p.1, p.2.value))

/-- Modelled from the spec: the helper `checkIsSkipField` (from the
absent `helpers.ts`) evaluates the field's `skip` predicate on the
execution context; a field with no `skip` predicate is never skipped. -/
def checkIsSkipField (fs : FormFields) (name : String) : Bool :=
  match getField fs name with
  | none => false
  | some f =>
    match f.config.skipFn with
    | none => false
    | some skipFn => skipFn (getFormValues fs)

/-- Modelled from the spec: the helper `scheduleFieldValidation` (from
the absent `helpers.ts`) sets the field's `__meta__.isValidationScheduled`
flag; since the meta object is shared through all copies of the field,
the update is applied to the collection entry. -/
def scheduleFieldValidation (fs : FormFields) (name : String) : FormFields :=
  match getField fs name with
  | none => fs
  | some f => setField fs name { f with isValidationScheduled := true }

/-- Applies the `scheduleValidation` calls a validator made during its
run, in order. -/
def applySchedules (fs : FormFields) (names : List String) : FormFields :=
  names.foldl scheduleFieldValidation fs

/-- `getNextErrorsFreeField` (`src/field.ts`): clears the error list and
resets `cleanValue` to `undefined`. -/
def getNextErrorsFreeField (f : FormField) : FormField :=
  { f with cleanValue := .undefined, errors := [] }

/-- `getNextErredField` (`src/field.ts`): installs the given error list
and nulls `cleanValue` when any error is present. -/
def getNextErredField (f : FormField) (fieldErrors : List FieldError) : FormField :=
  { f with
    errors := fieldErrors
    cleanValue := if fieldErrors.isEmpty then f.cleanValue else .undefined }

/-- `getNextResetField` (`src/field.ts`): clears errors and sets the
raw, clean and display values to the default value, or to `undefined`
when `isResetToDefault` is `false`. -/
def getNextResetField (f : FormField) (isResetToDefault : Bool := true) : FormField :=
  let errorsFreeField := getNextErrorsFreeField f
  let newFieldValue := if isResetToDefault then errorsFreeField.defaultValue else .undefined
  { errorsFreeField with
    value := newFieldValue
    rawValue := newFieldValue
    cleanValue := newFieldValue }

/-- `getNextAsyncValidatingField` (`src/field.ts`): marks the field as
undergoing asynchronous validation. -/
def getNextAsyncValidatingField (f : FormField) : FormField :=
  { f with isValidating := true }

/-- `getNextAsyncValidatedField` (`src/field.ts`): marks the field's
asynchronous validation as completed. -/
def getNextAsyncValidatedField (f : FormField) : FormField :=
  { f with isValidating := false }

/-- `handleFieldValidationResult` (`src/field.ts`): folds one validation
result into the error list.  A truthy array result is concatenated, a
truthy non-boolean result becomes a single `invalid` error, `false`
produces the configured (or default) `invalid` error, and anything else
(including `null` and the falsy empty string) adds nothing. -/
def handleFieldValidationResult (fieldErrors : List FieldError)
    (fieldConfig : FieldConfig) (validationResult : Option ValidationResult) :
    List FieldError :=
  match validationResult with
  | none => fieldErrors
  | some r =>
    if r.truthy then
      match r with
      | .errs es => fieldErrors ++ es
      | .msg m => fieldErrors ++ [⟨.invalid, m⟩]
      | .ok _ => fieldErrors
    else if r = .ok false then
      fieldErrors ++ [⟨.invalid, fieldConfig.invalidErrorMessage.getD (.str "Invalid value")⟩]
    else
      fieldErrors

/-- `getNextValidatedField` (`src/field.ts`): folds the validation result
into the collected errors, then produces the erred next state, or the
errors-free next state carrying the clean value. -/
def getNextValidatedField (fieldErrors : List FieldError)
    (validationResult : Option ValidationResult) (f : FormField)
    (cleanValue : JSValue) : FormField :=
  let es := handleFieldValidationResult fieldErrors f.config validationResult
  if es.isEmpty then
    { getNextErrorsFreeField f with cleanValue := cleanValue }
  else
    getNextErredField f es

/-- Strips the thousands separators, as the `number` value convertor of
`DEFAULT_FIELD_VALUE_CONVERTORS_MAP` does with `value.replace(/,/g, '')`. -/
def stripCommas (s : String) : String :=
  String.mk (s.data.filter (fun c => c ≠ ','))

/-- Parses an optionally signed decimal integer, the model of the
JavaScript `Number(...)` coercion on the integral strings the model
supports; any other string coerces to `NaN`. -/
def parseJsNumber (s : String) : JSValue :=
  let core := fun (t : String) =>
    if t ≠ "" ∧ t.data.all Char.isDigit then JSValue.num (t.toNat!) else JSValue.nan
  if s.startsWith "-" then
    match core (s.drop 1) with
    | .num n => .num (-n)
    | v => v
  else core s

/-- The `number` entry of `DEFAULT_FIELD_VALUE_CONVERTORS_MAP`
(`src/field.ts`): a non-empty string is numerically coerced after
removing thousands separators, a number passes through, anything else
becomes `undefined`. -/
def numberValueConvertor : JSValue → JSValue
  | .str s => if s ≠ "" then parseJsNumber (stripCommas s) else .undefined
  | .num n => .num n
  | _ => .undefined

/-- `sanitizeFieldValue` (`src/field.ts`): applies the per-type value
convertor when one exists (only the `number` type has one). -/
def sanitizeFieldValue (fieldType : FieldType) (v : JSValue) : JSValue :=
  match fieldType with
  | .number => numberValueConvertor v
  | _ => v

/-- The JavaScript whitespace characters the model's `trimStart` strips. -/
def isJsWhitespace (c : Char) : Bool :=
  c = ' ' ∨ c = '\t' ∨ c = '\n' ∨ c = '\r'

/-- Model of `String.prototype.trimStart`. -/
def jsTrimStart (s : String) : String :=
  String.mk (s.data.dropWhile isJsWhitespace)

/-- Applies `trimStart` when the value is a string, as the engine does
before filtering interactive field values (`typeof value === 'string'`). -/
def trimStartIfString : JSValue → JSValue
  | .str s => .str (jsTrimStart s)
  | v => v

/-- A per-type type validator (an entry of the absent
`INTERACTIVE_FIELD_TYPE_VALIDATORS_MAP` / `PASSIVE_FIELD_TYPE_VALIDATORS_MAP`):
from the sanitized value and the form values it yields a response plus
the field names it passes to `scheduleValidation`. -/
abbrev TypeValidator := JSValue → FormValues → ValidatorResponse × List String

/-- A built-in validator (an entry of the absent
`BUILT_IN_FIELD_VALIDATORS` / `BUILT_IN_INTERACTIVE_FIELD_VALIDATORS`
lists): pushes zero or more errors for the given value and config,
never short-circuiting its siblings. -/
abbrev BuiltInValidator := JSValue → FieldConfig → FormValues → List FieldError

/-- The collaborators imported from the repository modules that are not
part of the given sources (`validators.ts`, `helpers.ts`): the two
type-validator maps, the two built-in validator lists, and the child
forms validation used by `validateForm`.  The theorems below quantify
over this structure. -/
structure Collaborators where
  interactiveTypeValidator : FieldType → TypeValidator
  passiveTypeValidator : FieldType → TypeValidator
  builtInValidators : List BuiltInValidator
  builtInInteractiveValidators : List BuiltInValidator
  runChildFormsValidation : String → FormField → Bool

/-- `executeFieldTypeValidator` (`src/field.ts`): object and nested-forms
fields are skipped (`null`), interactive and passive fields run the
validator keyed by their type; a promise response is turned into `null`.
The second component carries the validator's `scheduleValidation` calls. -/
def executeFieldTypeValidator (C : Collaborators) (fs : FormFields)
    (f : FormField) (fieldValue : JSValue) :
    Option ValidationResult × List String :=
  if f.config.fieldType.isObject ∨ f.config.fieldType.isNestedForms then
    (none, [])
  else
    let formValues := getFormValues fs
    let response :=
      if f.config.fieldType.isInteractive then
        some (C.interactiveTypeValidator f.config.fieldType fieldValue formValues)
      else if f.config.fieldType.isPassive then
        some (C.passiveTypeValidator f.config.fieldType fieldValue formValues)
      else
        none
    match response with
    | none => (none, [])
    | some (.sync r, sched) => (some r, sched)
    | some (.promise _, sched) => (none, sched)

/-- `executeInternalFieldValidators` (`src/field.ts`): runs every built-in
validator in order, then--for interactive fields only--every built-in
interactive validator, collecting the errors they push. -/
def executeInternalFieldValidators (C : Collaborators) (fieldValue : JSValue)
    (fieldConfig : FieldConfig) (formValues : FormValues) : List FieldError :=
  let es := C.builtInValidators.foldl
    (fun acc v => acc ++ v fieldValue fieldConfig formValues) []
  if fieldConfig.fieldType.isInteractive then
    C.builtInInteractiveValidators.foldl
      (fun acc v => acc ++ v fieldValue fieldConfig formValues) es
  else
    es

/-- `executeFieldValidator` (`src/field.ts`), the synchronous validator
pipeline: sanitize, run the type validator, and--unless the type
validator failed--run the built-in validators and the custom validator.
A promise response from the custom validator switches the field to the
async-validating state and leaves the stage-1 result in place; the
promise's outcome does not enter the returned field.  The second
component is the collection with the validators' `scheduleValidation`
calls applied (the source mutates the shared `__meta__` objects; the
`scheduleValidation` type excludes the field being validated itself). -/
def executeFieldValidator (C : Collaborators) (fs : FormFields)
    (fieldName : String) (fieldValue : JSValue) : FormField × FormFields :=
  match getField fs fieldName with
  | none => ({ config := { fieldType := .string } }, fs)
  | some field =>
    let sanitizedValue := sanitizeFieldValue field.config.fieldType fieldValue
    let stage1 := executeFieldTypeValidator C fs field sanitizedValue
    let fs1 := applySchedules fs stage1.2
    if stage1.1 = none ∨ stage1.1 = some (.ok true) then
      let formValues := getFormValues fs1
      let internalErrors :=
        executeInternalFieldValidators C sanitizedValue field.config formValues
      match field.config.validator with
      | none =>
        (getNextValidatedField internalErrors stage1.1 field sanitizedValue, fs1)
      | some v =>
        let response := v sanitizedValue formValues
        let fs2 := applySchedules fs1 response.2
        match response.1 with
        | .promise _ =>
          let validatingField := getNextAsyncValidatingField field
          (getNextValidatedField internalErrors stage1.1 validatingField sanitizedValue, fs2)
        | .sync r =>
          (getNextValidatedField internalErrors (some r) field sanitizedValue, fs2)
    else
      (getNextValidatedField [] stage1.1 field sanitizedValue, fs1)

/-- `handleFieldAsyncValidationResult` (`src/field.ts`): the errors the
out-of-band promise continuation appends to the field via `addErrors` /
`addError`.  A rejection appends one `invalid` error whose message is
the configured `errorMessages.invalid` when present, and the rejection
error's message otherwise. -/
def handleFieldAsyncValidationResult (fieldConfig : FieldConfig)
    (outcome : PromiseOutcome) : List FieldError :=
  match outcome with
  | .resolved r =>
    if r.truthy then
      match r with
      | .errs es => es
      | .msg m => [⟨.invalid, m⟩]
      | .ok _ => []
    else if r = .ok false then
      [⟨.invalid, fieldConfig.invalidErrorMessage.getD (.str "Invalid value")⟩]
    else
      []
  | .rejected message =>
    [⟨.invalid, fieldConfig.invalidErrorMessage.getD (.str message)⟩]

/-- The raw-value filtering step of `executeFieldValidatorAsync`
(`src/field.ts`): the field's own raw value is trim-started for
interactive string values (though the trim is discarded when no filter
is configured), filtered when a filter is configured, and replaced by
the child forms' values for nested-forms fields. -/
def asyncFilteredValue (field : FormField) : JSValue :=
  if field.config.fieldType.isInteractive then
    let trimmed := trimStartIfString field.rawValue
    match field.config.filter with
    | some flt => flt trimmed
    | none => field.rawValue
  else if field.config.fieldType.isNestedForms then
    field.childFormsValues
  else
    field.rawValue

/-- `executeFieldValidatorAsync` (`src/field.ts`): like the synchronous
pipeline, but reading the field's own raw value through
`asyncFilteredValue`, and awaiting a promise response in place:
resolution becomes the validation result, rejection becomes the
rejection message treated as a string result. -/
def executeFieldValidatorAsync (C : Collaborators) (fs : FormFields)
    (fieldName : String) : FormField × FormFields :=
  match getField fs fieldName with
  | none => ({ config := { fieldType := .string } }, fs)
  | some field =>
    let sanitizedValue := sanitizeFieldValue field.config.fieldType (asyncFilteredValue field)
    let stage1 := executeFieldTypeValidator C fs field sanitizedValue
    let fs1 := applySchedules fs stage1.2
    if stage1.1 = none ∨ stage1.1 = some (.ok true) then
      let formValues := getFormValues fs1
      let internalErrors :=
        executeInternalFieldValidators C sanitizedValue field.config formValues
      match field.config.validator with
      | none =>
        (getNextValidatedField internalErrors stage1.1 field sanitizedValue, fs1)
      | some v =>
        let response := v sanitizedValue formValues
        let fs2 := applySchedules fs1 response.2
        let validationResult : Option ValidationResult :=
          match response.1 with
          | .sync r => some r
          | .promise (.resolved r) => some r
          | .promise (.rejected message) => some (.msg (.str message))
        (getNextValidatedField internalErrors validationResult field sanitizedValue, fs2)
    else
      (getNextValidatedField [] stage1.1 field sanitizedValue, fs1)

/-- `addFormFieldErrors` (`src/hooks/use-honey-form.ts`): appends the
given errors to the field's error list, leaving every other component of
the field--in particular `cleanValue`--unchanged.  (The source also
accepts alien field names for server errors; the model keeps the
collection unchanged in that case.) -/
def addFormFieldErrors (fs : FormFields) (fieldName : String)
    (errors : List FieldError) : FormFields :=
  match getField fs fieldName with
  | none => fs
  | some field =>
    setField fs fieldName { field with errors := field.errors ++ errors }

/-- The dependency check of `resetDependentFields` (`src/field.ts`): an
array declaration matches by membership, a function declaration is
evaluated on the resolved initiator name, the field's clean value and
the form values, and any other declaration matches by equality with the
changed field name (an absent declaration matches nothing). -/
def isDependentField (init fieldName : String) (other : FormField)
    (acc : FormFields) : Bool :=
  match other.config.dependsOn with
  | .many names => names.contains fieldName
  | .pred p => p init other.cleanValue (getFormValues acc)
  | .single n => fieldName = n
  | .noDep => false

/-- The `forEachFormField` scan inside `resetDependentFields`
(`src/field.ts`): walks the snapshot of field names, skips the changed
field itself, resets each dependent field to `undefined` via
`getNextResetField(·, false)`, and re-triggers the scan (through `recur`)
with the reset field as the new trigger unless that field is the
resolved initiator. -/
def resetScan (recur : FormFields → String → String → Option FormFields)
    (fieldName init : String) :
    FormFields → List String → Option FormFields
  | acc, [] => some acc
  | acc, otherName :: rest =>
    if otherName = fieldName then
      resetScan recur fieldName init acc rest
    else
      match getField acc otherName with
      | none => resetScan recur fieldName init acc rest
      | some other =>
        if isDependentField init fieldName other acc then
          if otherName = init then
            resetScan recur fieldName init
              (setField acc otherName (getNextResetField other false)) rest
          else
            match recur (setField acc otherName (getNextResetField other false))
                otherName fieldName with
            | none => none
            | some acc2 => resetScan recur fieldName init acc2 rest
        else
          resetScan recur fieldName init acc rest

/-- `resetDependentFields` (`src/field.ts`) with explicit fuel bounding
the recursion depth (the source recursion has no such bound and loops
forever on dependency cycles of length three or more); `none` means the
fuel was exhausted.  The third argument is the changed field, the fourth
the resolved initiator (`initiatorFieldName || fieldName`; the source's
recursive call passes the current trigger as the next initiator). -/
def resetDependentFieldsFuel : Nat → FormFields → String → String → Option FormFields
  | 0, _, _, _ => none
  | fuel + 1, fs, fieldName, init =>
    resetScan (fun a b c => resetDependentFieldsFuel fuel a b c)
      fieldName init fs (fieldNames fs)

/-- The top-level entry of `resetDependentFields` as called from
`getNextFieldsState` (`src/field.ts`): the initiator defaults to the
changed field itself. -/
def resetDependentFields (fuel : Nat) (fs : FormFields) (fieldName : String) :
    Option FormFields :=
  resetDependentFieldsFuel fuel fs fieldName fieldName

/-- `getNextSingleFieldState` (`src/field.ts`): stores the new value as
`rawValue` and, for interactive fields when formatting is requested and
a formatter is configured, the formatted value as the display `value`. -/
def getNextSingleFieldState (f : FormField) (fieldValue : JSValue)
    (isFormat : Bool) : FormField :=
  let formattedValue :=
    match f.config.formatter with
    | some fmt =>
      if f.config.fieldType.isInteractive && isFormat then fmt fieldValue else fieldValue
    | none => fieldValue
  { f with rawValue := fieldValue, value := formattedValue }

/-- `processSkippableFields` (`src/field.ts`): clears the errors of every
field the skip rules mark as skipped. -/
def processSkippableFields (fs : FormFields) : FormFields :=
  (fieldNames fs).foldl
    (fun acc otherName =>
      if checkIsSkipField acc otherName then
        match getField acc otherName with
        | some f => setField acc otherName (getNextErrorsFreeField f)
        | none => acc
      else acc)
    fs

/-- The raw-value filtering used when a scheduled field is re-validated
(`triggerScheduledFieldsValidations`, `src/field.ts`): interactive fields
with a filter re-filter their raw value, nested-forms fields read their
child forms' values, every other field passes its raw value through. -/
def rescanFilteredValue (f : FormField) : JSValue :=
  if f.config.fieldType.isInteractive && f.config.filter.isSome then
    (f.config.filter.getD id) f.rawValue
  else if f.config.fieldType.isNestedForms then
    f.childFormsValues
  else
    f.rawValue

/-- One iteration of the `forEachFormField` scan of
`triggerScheduledFieldsValidations` (`src/field.ts`): the changed field
is skipped; a field whose `isValidationScheduled` meta flag is set is
re-validated synchronously on its filtered raw value unless the skip
rules apply, and its flag is cleared afterwards in either case. -/
def rescanStep (C : Collaborators) (fieldName : String) (acc : FormFields)
    (otherName : String) : FormFields :=
  if otherName = fieldName then acc
  else
    match getField acc otherName with
    | none => acc
    | some f =>
      if f.isValidationScheduled then
        let acc1 :=
          if checkIsSkipField acc otherName then acc
          else
            let step := executeFieldValidator C acc otherName (rescanFilteredValue f)
            setField step.2 otherName step.1
        match getField acc1 otherName with
        | some g => setField acc1 otherName { g with isValidationScheduled := false }
        | none => acc1
      else acc

/-- `triggerScheduledFieldsValidations` (`src/field.ts`): runs the rescan
step over the snapshot of field names. -/
def triggerScheduledFieldsValidations (C : Collaborators) (fs : FormFields)
    (fieldName : String) : FormFields :=
  (fieldNames fs).foldl (rescanStep C fieldName) fs

/-- `getNextFieldsState` (`src/field.ts`), the full per-change pipeline:
filter the incoming value (trim-starting interactive string values),
run the dependency reset pass and the field validator when validation is
requested (clearing errors otherwise), commit the new single-field
state, process skippable fields, and run the scheduled-validations
rescan.  `none` reports fuel exhaustion of the dependency reset pass or
a missing field. -/
def getNextFieldsState (C : Collaborators) (fuel : Nat) (fieldName : String)
    (fieldValue : JSValue) (fs : FormFields) (isValidate isFormat : Bool) :
    Option FormFields :=
  match getField fs fieldName with
  | none => none
  | some field0 =>
    let filteredValue :=
      if field0.config.fieldType.isInteractive then
        let trimmed := trimStartIfString fieldValue
        match field0.config.filter with
        | some flt => flt trimmed
        | none => trimmed
      else fieldValue
    let afterValidate : Option (FormField × FormFields) :=
      if isValidate then
        match resetDependentFields fuel fs fieldName with
        | none => none
        | some fs1 => some (executeFieldValidator C fs1 fieldName filteredValue)
      else
        some (getNextErrorsFreeField field0, fs)
    match afterValidate with
    | none => none
    | some (nextField, fs2) =>
      let fs3 := setField fs2 fieldName (getNextSingleFieldState nextField filteredValue isFormat)
      let fs4 := processSkippableFields fs3
      some (triggerScheduledFieldsValidations C fs4 fieldName)

/-- Options of `validateForm` (`src/hooks/use-honey-form.ts`): optional
target and exclusion lists. -/
structure ValidateOptions where
  targetFields : Option (List String) := none
  excludeFields : Option (List String) := none

/-- The validation guard of `validateForm` (`src/hooks/use-honey-form.ts`):
a field is validated unless it is in the exclusion list, outside a
non-empty target list, or marked skippable by the skip rules. -/
def isValidatedField (fs : FormFields) (opts : ValidateOptions)
    (name : String) : Bool :=
  let isTargetFieldValidation :=
    match opts.targetFields with
    | some ts => if ts.length ≠ 0 then ts.contains name else true
    | none => true
  let isExcludeFieldFromValidation :=
    match opts.excludeFields with
    | some es => es.contains name
    | none => false
  !(isExcludeFieldFromValidation || !isTargetFieldValidation || checkIsSkipField fs name)

/-- One iteration of the `Promise.all` map inside `validateForm`
(`src/hooks/use-honey-form.ts`): a field the guard rejects is replaced
by its errors-free state and contributes no error; every other field
first validates its child forms and is then re-validated through
`executeFieldValidatorAsync` against the pre-pass collection,
contributing an error when its child forms failed or its fresh error
list holds an error whose type is not `server`. -/
def validateFormProcessOne (C : Collaborators) (fs : FormFields)
    (opts : ValidateOptions) (name : String) (f : FormField) :
    Bool × FormField :=
  if !isValidatedField fs opts name then
    (false, getNextErrorsFreeField f)
  else
    let hasChildFormsErrors := C.runChildFormsValidation name f
    let nextField := (executeFieldValidatorAsync C fs name).1
    (hasChildFormsErrors || nextField.errors.any (fun e => e.type ≠ .server), nextField)

/-- `validateForm` (`src/hooks/use-honey-form.ts`): validates every field
concurrently against the pre-pass collection, accumulates `hasErrors`,
and returns `!hasErrors` next to the freshly validated collection. -/
def validateForm (C : Collaborators) (fs : FormFields) (opts : ValidateOptions) :
    Bool × FormFields :=
  let processed := fs.map (fun p => (p.1, validateFormProcessOne C fs opts p.1 p.2))
  (!processed.any (fun p => p.2.1), processed.map (fun p => (p.1, p.2.2)))

/-- Modelled from the spec: the `required` entry of the built-in
validator list (the module `validators.ts` is not among the given
sources): a required field with a missing or empty value gets a single
`required` error. -/
def requiredValidator : BuiltInValidator := fun v cfg _ =>
  if cfg.required then
    match v with
    | .undefined => [⟨.required, .str "Value is required"⟩]
    | .str "" => [⟨.required, .str "Value is required"⟩]
    | _ => []
  else []

/-- A type validator that accepts every value and schedules nothing. -/
def acceptTypeValidator : TypeValidator := fun _ _ => (.sync (.ok true), [])

/-- Concrete collaborators used by the witnesses: accepting type
validators, the spec-modelled `required` built-in validator, and
error-free child forms. -/
def sampleCollab : Collaborators where
  interactiveTypeValidator := fun _ => acceptTypeValidator
  passiveTypeValidator := fun _ => acceptTypeValidator
  builtInValidators := [requiredValidator]
  builtInInteractiveValidators := []
  runChildFormsValidation := fun _ _ => false

theorem getNextValidatedField_errors (es : List FieldError)
    (vr : Option ValidationResult) (f : FormField) (cv : JSValue) :
    (getNextValidatedField es vr f cv).errors =
      handleFieldValidationResult es f.config vr := by
  by_cases hemp : (handleFieldValidationResult es f.config vr).isEmpty
  · rw [List.isEmpty_iff] at hemp
    simp [getNextValidatedField, hemp, getNextErrorsFreeField]
  · simp [getNextValidatedField, hemp, getNextErredField]

theorem getNextValidatedField_isValidating (es : List FieldError)
    (vr : Option ValidationResult) (f : FormField) (cv : JSValue) :
    (getNextValidatedField es vr f cv).isValidating = f.isValidating := by
  by_cases hemp : (handleFieldValidationResult es f.config vr).isEmpty <;>
    simp [getNextValidatedField, hemp, getNextErrorsFreeField, getNextErredField]

theorem getNextValidatedField_config (es : List FieldError)
    (vr : Option ValidationResult) (f : FormField) (cv : JSValue) :
    (getNextValidatedField es vr f cv).config = f.config := by
  by_cases hemp : (handleFieldValidationResult es f.config vr).isEmpty <;>
    simp [getNextValidatedField, hemp, getNextErrorsFreeField, getNextErredField]

theorem getNextValidatedField_cleanValue_undef (es : List FieldError)
    (vr : Option ValidationResult) (f : FormField) (cv : JSValue)
    (h : (getNextValidatedField es vr f cv).errors ≠ []) :
    (getNextValidatedField es vr f cv).cleanValue = .undefined := by
  by_cases hemp : (handleFieldValidationResult es f.config vr).isEmpty
  · exfalso
    apply h
    rw [List.isEmpty_iff] at hemp
    simp [getNextValidatedField, hemp, getNextErrorsFreeField]
  · have hne : ¬ handleFieldValidationResult es f.config vr = [] := by
      simpa [List.isEmpty_iff] using hemp
    simp [getNextValidatedField, hemp, getNextErredField, hne]

theorem executeFieldValidator_fst_shape (C : Collaborators) (fs : FormFields)
    (n : String) (v : JSValue) :
    (∃ es vr f cv, (executeFieldValidator C fs n v).1 = getNextValidatedField es vr f cv) ∨
      (executeFieldValidator C fs n v).1 = { config := { fieldType := .string } } := by
  unfold executeFieldValidator
  cases getField fs n with
  | none => right; rfl
  | some field =>
    left
    dsimp only
    split
    · split
      · exact ⟨_, _, _, _, rfl⟩
      · split
        · exact ⟨_, _, _, _, rfl⟩
        · exact ⟨_, _, _, _, rfl⟩
    · exact ⟨_, _, _, _, rfl⟩

theorem executeFieldValidatorAsync_fst_shape (C : Collaborators)
    (fs : FormFields) (n : String) :
    (∃ es vr f cv, (executeFieldValidatorAsync C fs n).1 = getNextValidatedField es vr f cv) ∨
      (executeFieldValidatorAsync C fs n).1 = { config := { fieldType := .string } } := by
  unfold executeFieldValidatorAsync
  cases getField fs n with
  | none => right; rfl
  | some field =>
    left
    dsimp only
    split
    · split
      · exact ⟨_, _, _, _, rfl⟩
      · exact ⟨_, _, _, _, rfl⟩
    · exact ⟨_, _, _, _, rfl⟩

theorem executeFieldValidator_errors_cleanValue (C : Collaborators)
    (fs : FormFields) (n : String) (v : JSValue)
    (h : (executeFieldValidator C fs n v).1.errors ≠ []) :
    (executeFieldValidator C fs n v).1.cleanValue = .undefined := by
  rcases executeFieldValidator_fst_shape C fs n v with ⟨es, vr, f, cv, hshape⟩ | hshape
  · rw [hshape] at h ⊢
    exact getNextValidatedField_cleanValue_undef _ _ _ _ h
  · rw [hshape] at h
    simp at h

theorem executeFieldValidatorAsync_errors_cleanValue (C : Collaborators)
    (fs : FormFields) (n : String)
    (h : (executeFieldValidatorAsync C fs n).1.errors ≠ []) :
    (executeFieldValidatorAsync C fs n).1.cleanValue = .undefined := by
  rcases executeFieldValidatorAsync_fst_shape C fs n with ⟨es, vr, f, cv, hshape⟩ | hshape
  · rw [hshape] at h ⊢
    exact getNextValidatedField_cleanValue_undef _ _ _ _ h
  · rw [hshape] at h
    simp at h

def w1Field : FormField := { config := { fieldType := .string } }

/-- C1 (amended): after the erring, error-clearing, reset and validation
transitions, a field with a non-empty error list has an undefined clean
value, and a plain value set preserves errors and clean value unchanged;
the error-append transition `addFormFieldErrors`, however, appends to the
error list while leaving `cleanValue` untouched (see the counterexample),
so the invariant does not survive error appends. -/
theorem c1_clean_value_invariant :
    (∀ (f : FormField) (es : List FieldError),
        (getNextErredField f es).errors ≠ [] →
        (getNextErredField f es).cleanValue = .undefined) ∧
    (∀ f : FormField,
        (getNextErrorsFreeField f).errors = [] ∧
        (getNextErrorsFreeField f).cleanValue = .undefined) ∧
    (∀ (f : FormField) (toDefault : Bool),
        (getNextResetField f toDefault).errors = []) ∧
    (∀ (C : Collaborators) (fs : FormFields) (n : String) (v : JSValue),
        (executeFieldValidator C fs n v).1.errors ≠ [] →
        (executeFieldValidator C fs n v).1.cleanValue = .undefined) ∧
    (∀ (C : Collaborators) (fs : FormFields) (n : String),
        (executeFieldValidatorAsync C fs n).1.errors ≠ [] →
        (executeFieldValidatorAsync C fs n).1.cleanValue = .undefined) ∧
    (∀ (f : FormField) (v : JSValue) (isFormat : Bool),
        (getNextSingleFieldState f v isFormat).errors = f.errors ∧
        (getNextSingleFieldState f v isFormat).cleanValue = f.cleanValue) := by
  refine ⟨?_, ?_, ?_, ?_, ?_, ?_⟩
  · intro f es h
    simp only [getNextErredField] at h ⊢
    have : ¬ es.isEmpty := by simpa [List.isEmpty_iff] using h
    simp [this]
  · intro f
    simp [getNextErrorsFreeField]
  · intro f toDefault
    simp [getNextResetField, getNextErrorsFreeField]
  · exact executeFieldValidator_errors_cleanValue
  · exact executeFieldValidatorAsync_errors_cleanValue
  · intro f v isFormat
    simp [getNextSingleFieldState]

theorem c1_clean_value_invariant_witness :
    (getNextErredField w1Field [⟨.invalid, .str "bad"⟩]).cleanValue = .undefined :=
  c1_clean_value_invariant.1 w1Field [⟨.invalid, .str "bad"⟩] (by decide)

def c1Fields : FormFields :=
  [("a", { config := { fieldType := .string }, cleanValue := .num 5 })]

/-- C1 (counterexample): appending a server error through
`addFormFieldErrors` produces a field whose error list is non-empty and
whose clean value is still the defined value `5`, violating the claimed
invariant right after an error-append transition. -/
theorem c1_add_errors_counterexample :
    (getField (addFormFieldErrors c1Fields "a" [⟨.server, .str "taken"⟩]) "a").map
        FormField.errors = some [⟨.server, .str "taken"⟩] ∧
    (getField (addFormFieldErrors c1Fields "a" [⟨.server, .str "taken"⟩]) "a").map
        FormField.cleanValue = some (.num 5) ∧
    JSValue.num 5 ≠ JSValue.undefined :=
  ⟨rfl, rfl, fun h => JSValue.noConfusion h⟩

/-- C5 (amended): after stage 1, a `false` result yields exactly one
`invalid` error with the configured or default message, a `true` result
and a `null` result yield none, an array result is concatenated
verbatim, and a message result yields exactly one `invalid` error with
that message when the message is truthy--but a falsy message (the empty
string) yields no error at all, which refutes the claim's unconditional
string clause (see the counterexample). -/
theorem c5_validation_result_policy :
    (∀ (es : List FieldError) (cfg : FieldConfig),
        handleFieldValidationResult es cfg (some (.ok false)) =
          es ++ [⟨.invalid, cfg.invalidErrorMessage.getD (.str "Invalid value")⟩]) ∧
    (∀ (es : List FieldError) (cfg : FieldConfig),
        handleFieldValidationResult es cfg (some (.ok true)) = es) ∧
    (∀ (es : List FieldError) (cfg : FieldConfig) (l : List FieldError),
        handleFieldValidationResult es cfg (some (.errs l)) = es ++ l) ∧
    (∀ (es : List FieldError) (cfg : FieldConfig) (m : Msg), m.truthy = true →
        handleFieldValidationResult es cfg (some (.msg m)) = es ++ [⟨.invalid, m⟩]) ∧
    (∀ (es : List FieldError) (cfg : FieldConfig) (m : Msg), m.truthy = false →
        handleFieldValidationResult es cfg (some (.msg m)) = es) ∧
    (∀ (es : List FieldError) (cfg : FieldConfig),
        handleFieldValidationResult es cfg none = es) := by
  refine ⟨?_, ?_, ?_, ?_, ?_, ?_⟩
  · intro es cfg
    simp [handleFieldValidationResult, ValidationResult.truthy]
  · intro es cfg
    simp [handleFieldValidationResult, ValidationResult.truthy]
  · intro es cfg l
    simp [handleFieldValidationResult, ValidationResult.truthy]
  · intro es cfg m h
    simp [handleFieldValidationResult, ValidationResult.truthy, h]
  · intro es cfg m h
    simp [handleFieldValidationResult, ValidationResult.truthy, h]
  · intro es cfg
    simp [handleFieldValidationResult]

theorem c5_validation_result_policy_witness :
    handleFieldValidationResult [] { fieldType := .string }
        (some (.msg (.str "Too long"))) = [⟨.invalid, .str "Too long"⟩] :=
  c5_validation_result_policy.2.2.2.1 [] { fieldType := .string }
    (.str "Too long") (by decide)

/-- C5 (counterexample): a custom validator returning the empty string (a
legal string validation result, falsy in JavaScript) yields no error at
all, not the single `invalid` error with that message the claim
requires. -/
theorem c5_empty_string_counterexample :
    handleFieldValidationResult [] { fieldType := .string }
        (some (.msg (.str ""))) = [] ∧
    ([] : List FieldError) ≠ [⟨.invalid, .str ""⟩] :=
  ⟨rfl, by decide⟩

/-- C7 (amended): an asynchronous custom validator's rejection is caught
and converted into errors rather than re-thrown: the out-of-band handler
of the synchronous path appends exactly one `invalid` error whose message
is the configured `errorMessages.invalid` when present and the
rejection's message otherwise, while `executeFieldValidatorAsync` treats
the rejection's message as a string validation result (so it yields
exactly one `invalid` error carrying that message when the message is
truthy, per the stage-1 error policy) and still returns a fully resolved
field state. -/
theorem c7_rejection_handling :
    (∀ (cfg : FieldConfig) (m : String),
        handleFieldAsyncValidationResult cfg (.rejected m) =
          [⟨.invalid, cfg.invalidErrorMessage.getD (.str m)⟩]) ∧
    (∀ (C : Collaborators) (fs : FormFields) (n : String) (field : FormField)
        (valFn : CustomValidator) (m : String) (sched : List String),
        getField fs n = some field →
        field.config.validator = some valFn →
        ((executeFieldTypeValidator C fs field
            (sanitizeFieldValue field.config.fieldType (asyncFilteredValue field))).1 = none ∨
          (executeFieldTypeValidator C fs field
            (sanitizeFieldValue field.config.fieldType (asyncFilteredValue field))).1 =
            some (.ok true)) →
        valFn (sanitizeFieldValue field.config.fieldType (asyncFilteredValue field))
            (getFormValues (applySchedules fs
              (executeFieldTypeValidator C fs field
                (sanitizeFieldValue field.config.fieldType (asyncFilteredValue field))).2)) =
          (.promise (.rejected m), sched) →
        (executeFieldValidatorAsync C fs n).1.errors =
          handleFieldValidationResult
            (executeInternalFieldValidators C
              (sanitizeFieldValue field.config.fieldType (asyncFilteredValue field))
              field.config
              (getFormValues (applySchedules fs
                (executeFieldTypeValidator C fs field
                  (sanitizeFieldValue field.config.fieldType (asyncFilteredValue field))).2)))
            field.config (some (.msg (.str m)))) := by
  constructor
  · intro cfg m
    rfl
  · intro C fs n field valFn m sched hget hval hstage hresp
    unfold executeFieldValidatorAsync
    rw [hget]
    dsimp only
    rw [if_pos hstage, hval]
    dsimp only
    rw [hresp]
    dsimp only
    exact getNextValidatedField_errors _ _ _ _

def c7Field : FormField :=
  { config :=
      { fieldType := .string
        validator := some (fun _ _ => (.promise (.rejected "boom"), [])) }
    rawValue := .str "x" }

def c7Fields : FormFields := [("u", c7Field)]

theorem c7_rejection_handling_witness :
    (executeFieldValidatorAsync sampleCollab c7Fields "u").1.errors =
      [⟨.invalid, .str "boom"⟩] := by
  have h := c7_rejection_handling.2 sampleCollab c7Fields "u" c7Field
      (fun _ _ => (.promise (.rejected "boom"), [])) "boom" [] rfl rfl
      (Or.inr rfl) rfl
  rw [h]
  rfl

def c7Config : FieldConfig :=
  { fieldType := .string, invalidErrorMessage := some (.str "Custom invalid") }

/-- C7 (counterexample): with a configured `errorMessages.invalid`, the
out-of-band rejection handler appends the configured message, not the
rejection's message `"boom"`--so the appended error does not carry the
rejection's message as the claim states. -/
theorem c7_configured_message_counterexample :
    handleFieldAsyncValidationResult c7Config (.rejected "boom") =
      [⟨.invalid, .str "Custom invalid"⟩] ∧
    handleFieldAsyncValidationResult c7Config (.rejected "boom") ≠
      [⟨.invalid, .str "boom"⟩] :=
  ⟨rfl, by decide⟩

/-- C4 (amended): the custom validator is gated only on the type
validator's result.  When the stage-1 result is neither `null` nor
`true`, stages 2 and 3 are skipped entirely and the output is determined
by the stage-1 result alone; when stage 1 passes, the custom validator's
synchronous result is folded in after the built-in validators' errors
even when those errors are non-empty (the built-in stage does not gate
stage 3; see the counterexample). -/
theorem c4_custom_validator_gate :
    (∀ (C : Collaborators) (fs : FormFields) (n : String) (field : FormField)
        (v : JSValue),
        getField fs n = some field →
        ¬ ((executeFieldTypeValidator C fs field
              (sanitizeFieldValue field.config.fieldType v)).1 = none ∨
           (executeFieldTypeValidator C fs field
              (sanitizeFieldValue field.config.fieldType v)).1 =
              some (.ok true)) →
        executeFieldValidator C fs n v =
          (getNextValidatedField []
              (executeFieldTypeValidator C fs field
                (sanitizeFieldValue field.config.fieldType v)).1
              field (sanitizeFieldValue field.config.fieldType v),
            applySchedules fs
              (executeFieldTypeValidator C fs field
                (sanitizeFieldValue field.config.fieldType v)).2)) ∧
    (∀ (C : Collaborators) (fs : FormFields) (n : String) (field : FormField)
        (v : JSValue) (valFn : CustomValidator) (r : ValidationResult)
        (sched : List String),
        getField fs n = some field →
        ((executeFieldTypeValidator C fs field
            (sanitizeFieldValue field.config.fieldType v)).1 = none ∨
          (executeFieldTypeValidator C fs field
            (sanitizeFieldValue field.config.fieldType v)).1 =
            some (.ok true)) →
        field.config.validator = some valFn →
        valFn (sanitizeFieldValue field.config.fieldType v)
            (getFormValues (applySchedules fs
              (executeFieldTypeValidator C fs field
                (sanitizeFieldValue field.config.fieldType v)).2)) =
          (.sync r, sched) →
        (executeFieldValidator C fs n v).1.errors =
          handleFieldValidationResult
            (executeInternalFieldValidators C
              (sanitizeFieldValue field.config.fieldType v) field.config
              (getFormValues (applySchedules fs
                (executeFieldTypeValidator C fs field
                  (sanitizeFieldValue field.config.fieldType v)).2)))
            field.config (some r)) := by
  constructor
  · intro C fs n field v hget hfail
    unfold executeFieldValidator
    rw [hget]
    dsimp only
    rw [if_neg hfail]
  · intro C fs n field v valFn r sched hget hstage hval hresp
    unfold executeFieldValidator
    rw [hget]
    dsimp only
    rw [if_pos hstage, hval]
    dsimp only
    rw [hresp]
    dsimp only
    exact getNextValidatedField_errors _ _ _ _

def c4FailTypeCollab : Collaborators where
  interactiveTypeValidator := fun _ _ _ => (.sync (.ok false), [])
  passiveTypeValidator := fun _ => acceptTypeValidator
  builtInValidators := [requiredValidator]
  builtInInteractiveValidators := []
  runChildFormsValidation := fun _ _ => false

def c4GateField : FormField :=
  { config := { fieldType := .string, required := true } }

theorem c4_custom_validator_gate_witness :
    executeFieldValidator c4FailTypeCollab [("a", c4GateField)] "a" .undefined =
      (getNextValidatedField [] (some (.ok false)) c4GateField .undefined,
        [("a", c4GateField)]) :=
  c4_custom_validator_gate.1 c4FailTypeCollab [("a", c4GateField)] "a"
    c4GateField .undefined rfl (by decide)

def c4FalseValidator : CustomValidator := fun _ _ => (.sync (.ok false), [])

def c4FieldsWith (v : Option CustomValidator) : FormFields :=
  [("a", { config := { fieldType := .string, required := true, validator := v } })]

/-- C4 (counterexample): a required field with a missing value--so the
built-in stage pushes a `required` error--still runs the configured
custom validator, whose `false` result appends an `invalid` error; with
no custom validator configured the output stops at the `required` error,
showing stage 3 ran despite the stage-2 failure. -/
theorem c4_builtin_failure_counterexample :
    (executeFieldValidator sampleCollab (c4FieldsWith (some c4FalseValidator))
        "a" .undefined).1.errors =
      [⟨.required, .str "Value is required"⟩, ⟨.invalid, .str "Invalid value"⟩] ∧
    (executeFieldValidator sampleCollab (c4FieldsWith none) "a" .undefined).1.errors =
      [⟨.required, .str "Value is required"⟩] :=
  ⟨rfl, rfl⟩

/-- C6: when stage 1 passes and the custom validator returns a promise,
the synchronous pipeline returns a field in the async-validating state
(`isValidating = true`) whose errors are exactly the errors the built-in
stage produced; the promise's eventual outcome `p` does not influence
the returned field (the conclusion is independent of `p`). -/
theorem c6_sync_promise_pending_state :
    ∀ (C : Collaborators) (fs : FormFields) (n : String) (field : FormField)
      (v : JSValue) (valFn : CustomValidator) (p : PromiseOutcome)
      (sched : List String),
      getField fs n = some field →
      ((executeFieldTypeValidator C fs field
          (sanitizeFieldValue field.config.fieldType v)).1 = none ∨
        (executeFieldTypeValidator C fs field
          (sanitizeFieldValue field.config.fieldType v)).1 =
          some (.ok true)) →
      field.config.validator = some valFn →
      valFn (sanitizeFieldValue field.config.fieldType v)
          (getFormValues (applySchedules fs
            (executeFieldTypeValidator C fs field
              (sanitizeFieldValue field.config.fieldType v)).2)) =
        (.promise p, sched) →
      (executeFieldValidator C fs n v).1.isValidating = true ∧
      (executeFieldValidator C fs n v).1.errors =
        executeInternalFieldValidators C
          (sanitizeFieldValue field.config.fieldType v) field.config
          (getFormValues (applySchedules fs
            (executeFieldTypeValidator C fs field
              (sanitizeFieldValue field.config.fieldType v)).2)) := by
  intro C fs n field v valFn p sched hget hstage hval hresp
  unfold executeFieldValidator
  rw [hget]
  dsimp only
  rw [if_pos hstage, hval]
  dsimp only
  rw [hresp]
  dsimp only
  constructor
  · rw [getNextValidatedField_isValidating]
    rfl
  · rw [getNextValidatedField_errors]
    rcases hstage with h | h <;> rw [h] <;>
      simp [handleFieldValidationResult, ValidationResult.truthy]

def c6Field : FormField :=
  { config :=
      { fieldType := .string
        validator := some (fun _ _ => (.promise (.resolved (.ok false)), [])) }
    rawValue := .str "joe" }

def c6Fields : FormFields := [("username", c6Field)]

theorem c6_sync_promise_pending_state_witness :
    (executeFieldValidator sampleCollab c6Fields "username" (.str "joe")).1.isValidating = true ∧
    (executeFieldValidator sampleCollab c6Fields "username" (.str "joe")).1.errors = [] := by
  have h := c6_sync_promise_pending_state sampleCollab c6Fields "username"
    c6Field (.str "joe") (fun _ _ => (.promise (.resolved (.ok false)), []))
    (.resolved (.ok false)) [] rfl (Or.inr rfl) rfl rfl
  exact ⟨h.1, h.2.trans rfl⟩

theorem getField_cons (p : String × FormField) (t : FormFields) (n : String) :
    getField (p :: t) n = if p.1 = n then some p.2 else getField t n := by
  by_cases h : p.1 = n <;> simp [getField, List.find?_cons, h]

theorem fieldNames_setField (fs : FormFields) (n : String) (g : FormField) :
    fieldNames (setField fs n g) = fieldNames fs := by
  unfold fieldNames setField
  rw [List.map_map]
  apply List.map_congr_left
  intro p _
  by_cases h : p.1 = n <;> simp [h]

theorem getField_setField_self (fs : FormFields) (n : String) (g : FormField)
    (h : n ∈ fieldNames fs) : getField (setField fs n g) n = some g := by
  induction fs with
  | nil => simp [fieldNames] at h
  | cons p t ih =>
    by_cases hp : p.1 = n
    · simp [setField, getField_cons, hp]
    · have h' : n ∈ fieldNames t := by
        rcases List.mem_cons.mp h with h | h
        · exact absurd h.symm hp
        · exact h
      simpa [setField, getField_cons, hp] using ih h'

theorem setField_cons (p : String × FormField) (t : FormFields) (n : String)
    (g : FormField) :
    setField (p :: t) n g = (if p.1 = n then (p.1, g) else p) :: setField t n g := rfl

theorem getField_setField_ne (fs : FormFields) (n : String) (g : FormField)
    (m : String) (h : m ≠ n) : getField (setField fs n g) m = getField fs m := by
  induction fs with
  | nil => rfl
  | cons p t ih =>
    by_cases hp : p.1 = n
    · have hn : ¬ n = m := fun hh => h hh.symm
      simp [setField_cons, hp, getField_cons, hn, ih]
    · by_cases hm : p.1 = m
      · simp [setField_cons, hp, getField_cons, hm, h]
      · simp [setField_cons, hp, getField_cons, hm, ih]

theorem mem_fieldNames_of_getField {fs : FormFields} {n : String} {f : FormField}
    (h : getField fs n = some f) : n ∈ fieldNames fs := by
  induction fs with
  | nil => simp [getField] at h
  | cons p t ih =>
    rw [getField_cons] at h
    by_cases hp : p.1 = n
    · simp [fieldNames, hp.symm]
    · rw [if_neg hp] at h
      simp [fieldNames]
      right
      simpa [fieldNames] using ih h

/-- The name-based part of a `dependsOn` declaration: does the field
declaring `d` depend on the changed field `t`?  A predicate declaration
is not name-based and never matches statically. -/
def staticDependsOnMatch : DependsOn → String → Bool
  | .single n, t => t = n
  | .many ns, t => ns.contains t
  | _, _ => false

/-- A `dependsOn` declaration that is name-based (not a predicate). -/
def IsStaticDep : DependsOn → Prop
  | .pred _ => False
  | _ => True

theorem isDependent_of_static {other : FormField} {t : String}
    (h : staticDependsOnMatch other.config.dependsOn t = true)
    (init : String) (acc : FormFields) :
    isDependentField init t other acc = true := by
  unfold isDependentField
  unfold staticDependsOnMatch at h
  cases hdep : other.config.dependsOn with
  | noDep => rw [hdep] at h; exact absurd h (by simp)
  | single n => rw [hdep] at h; exact h
  | many ns => rw [hdep] at h; exact h
  | pred p => rw [hdep] at h; exact absurd h (by simp)

theorem isDependent_eq_static {other : FormField} {t : String}
    (hs : IsStaticDep other.config.dependsOn) (init : String) (acc : FormFields) :
    isDependentField init t other acc = staticDependsOnMatch other.config.dependsOn t := by
  unfold isDependentField staticDependsOnMatch
  cases hdep : other.config.dependsOn with
  | noDep => simp
  | single n => rfl
  | many ns => rfl
  | pred p => rw [hdep] at hs; exact absurd hs (by simp [IsStaticDep])

/-- The claim's "`dependsOn` declaration matches the changed field name",
covering all three declaration forms: name equality, list membership, or
predicate evaluation returning `true` on the changed field name (for
every clean-value and form-values argument, since the code re-evaluates
the predicate on the collection state current at each scan step). -/
def DependsOnMatches : DependsOn → String → Prop
  | .single n, t => t = n
  | .many ns, t => ns.contains t = true
  | .pred p, t => ∀ v fv, p t v fv = true
  | .noDep, _ => False

theorem isDependent_of_matches {t : String} {other : FormField}
    (h : DependsOnMatches other.config.dependsOn t) (acc : FormFields) :
    isDependentField t t other acc = true := by
  unfold isDependentField
  cases hd : other.config.dependsOn with
  | noDep => rw [hd] at h; exact absurd h (by simp [DependsOnMatches])
  | single n =>
    rw [hd] at h
    have hn : t = n := h
    simp [hn]
  | many ns => rw [hd] at h; exact h
  | pred p => rw [hd] at h; exact h other.cleanValue (getFormValues acc)

/-- Fields left behind by a dependency reset: errors cleared and all the
value mirrors set to `undefined`. -/
def ResetShaped (f : FormField) : Prop :=
  f.errors = [] ∧ f.rawValue = .undefined ∧ f.cleanValue = .undefined ∧ f.value = .undefined

theorem resetShaped_reset (f : FormField) : ResetShaped (getNextResetField f false) := by
  simp [ResetShaped, getNextResetField, getNextErrorsFreeField]

theorem getNextResetField_config (f : FormField) (b : Bool) :
    (getNextResetField f b).config = f.config := rfl

theorem getNextResetField_false_idem (f : FormField) :
    getNextResetField (getNextResetField f false) false = getNextResetField f false := rfl

/-- Relates a collection to a later one whose only changes are fields
replaced by their cleared reset state. -/
def ResetRel (orig now : FormFields) : Prop :=
  fieldNames now = fieldNames orig ∧
  ∀ n, getField now n = getField orig n ∨
    ∃ f, getField orig n = some f ∧ getField now n = some (getNextResetField f false)

theorem resetRel_refl (fs : FormFields) : ResetRel fs fs :=
  ⟨rfl, fun _ => Or.inl rfl⟩

theorem ResetRel.trans {a b c : FormFields} (h1 : ResetRel a b) (h2 : ResetRel b c) :
    ResetRel a c := by
  refine ⟨h2.1.trans h1.1, fun n => ?_⟩
  rcases h2.2 n with h | ⟨f, hf, hf'⟩
  · rw [h]; exact h1.2 n
  · rcases h1.2 n with h | ⟨f0, hf0, hf0'⟩
    · rw [h] at hf
      exact Or.inr ⟨f, hf, hf'⟩
    · rw [hf0'] at hf
      obtain rfl : getNextResetField f0 false = f := Option.some.inj hf
      exact Or.inr ⟨f0, hf0, by rw [hf', getNextResetField_false_idem]⟩

theorem ResetRel.step {orig now : FormFields} {n : String} {g : FormField}
    (h : ResetRel orig now) (hg : getField now n = some g) :
    ResetRel orig (setField now n (getNextResetField g false)) := by
  refine ⟨(fieldNames_setField now n _).trans h.1, fun m => ?_⟩
  by_cases hm : m = n
  · subst hm
    have hmem : m ∈ fieldNames now := mem_fieldNames_of_getField hg
    rw [getField_setField_self now m _ hmem]
    rcases h.2 m with h' | ⟨f, hf, hf'⟩
    · rw [h'] at hg
      exact Or.inr ⟨g, hg, rfl⟩
    · rw [hf'] at hg
      obtain rfl : getNextResetField f false = g := Option.some.inj hg
      exact Or.inr ⟨f, hf, by rw [getNextResetField_false_idem]⟩
  · rw [getField_setField_ne now n _ m hm]
    exact h.2 m

theorem ResetRel.entry {orig now : FormFields} {n : String} {f : FormField}
    (h : ResetRel orig now) (hf : getField orig n = some f) :
    ∃ g, getField now n = some g ∧ g.config = f.config ∧
      (g = f ∨ g = getNextResetField f false) := by
  rcases h.2 n with h' | ⟨f0, hf0, hf0'⟩
  · exact ⟨f, h'.trans hf, rfl, Or.inl rfl⟩
  · rw [hf] at hf0
    cases Option.some.inj hf0
    exact ⟨getNextResetField f false, hf0', getNextResetField_config f false, Or.inr rfl⟩

theorem resetScan_nil (recur : FormFields → String → String → Option FormFields)
    (fieldName init : String) (acc : FormFields) :
    resetScan recur fieldName init acc [] = some acc := rfl

theorem resetScan_cons (recur : FormFields → String → String → Option FormFields)
    (fieldName init : String) (acc : FormFields) (otherName : String)
    (rest : List String) :
    resetScan recur fieldName init acc (otherName :: rest) =
      if otherName = fieldName then
        resetScan recur fieldName init acc rest
      else
        match getField acc otherName with
        | none => resetScan recur fieldName init acc rest
        | some other =>
          if isDependentField init fieldName other acc then
            if otherName = init then
              resetScan recur fieldName init
                (setField acc otherName (getNextResetField other false)) rest
            else
              match recur (setField acc otherName (getNextResetField other false))
                  otherName fieldName with
              | none => none
              | some acc2 => resetScan recur fieldName init acc2 rest
          else
            resetScan recur fieldName init acc rest := rfl

theorem resetScan_resetRel
    (recur : FormFields → String → String → Option FormFields)
    (hrec : ∀ a t i out, recur a t i = some out → ResetRel a out)
    (fieldName init : String) :
    ∀ (names : List String) (acc out : FormFields),
      resetScan recur fieldName init acc names = some out → ResetRel acc out := by
  intro names
  induction names with
  | nil =>
    intro acc out h
    rw [resetScan_nil] at h
    cases Option.some.inj h
    exact resetRel_refl acc
  | cons x rest ih =>
    intro acc out h
    rw [resetScan_cons] at h
    split at h
    · exact ih _ _ h
    · split at h
      · exact ih _ _ h
      · next other hg =>
        split at h
        · split at h
          · exact ResetRel.trans (ResetRel.step (resetRel_refl acc) hg) (ih _ _ h)
          · split at h
            · exact absurd h (by simp)
            · next acc2 hrecEq =>
              exact ResetRel.trans
                (ResetRel.trans (ResetRel.step (resetRel_refl acc) hg)
                  (hrec _ _ _ _ hrecEq))
                (ih _ _ h)
        · exact ih _ _ h

theorem shapedAt_mono {a a' : FormFields} (h : ResetRel a a') {b : String}
    {g : FormField} (hg : getField a b = some g) (hs : ResetShaped g) :
    ∃ g', getField a' b = some g' ∧ ResetShaped g' := by
  obtain ⟨g', hg', _, hcase⟩ := h.entry hg
  rcases hcase with rfl | rfl
  · exact ⟨g', hg', hs⟩
  · exact ⟨_, hg', resetShaped_reset g⟩

theorem resetScan_resets
    (recur : FormFields → String → String → Option FormFields)
    (hrec : ∀ a t i out, recur a t i = some out → ResetRel a out)
    (fieldName init : String) (d : DependsOn)
    (hmatch : ∀ (g : FormField) (acc' : FormFields), g.config.dependsOn = d →
      isDependentField init fieldName g acc' = true) :
    ∀ (names : List String) (acc out : FormFields) (b : String) (fb : FormField),
      b ∈ names → b ≠ fieldName →
      getField acc b = some fb →
      fb.config.dependsOn = d →
      resetScan recur fieldName init acc names = some out →
      ∃ g, getField out b = some g ∧ ResetShaped g := by
  intro names
  induction names with
  | nil =>
    intro acc out b fb hmem
    exact absurd hmem (List.not_mem_nil b)
  | cons x rest ih =>
    intro acc out b fb hmem hbf hgb hstatic h
    rw [resetScan_cons] at h
    by_cases hxb : x = b
    · subst hxb
      rw [if_neg hbf] at h
      rw [hgb] at h
      dsimp only at h
      rw [if_pos (hmatch fb acc hstatic)] at h
      have hmemb : x ∈ fieldNames acc := mem_fieldNames_of_getField hgb
      have hb1 : getField (setField acc x (getNextResetField fb false)) x =
          some (getNextResetField fb false) :=
        getField_setField_self acc x _ hmemb
      split at h
      · exact shapedAt_mono (resetScan_resetRel recur hrec fieldName init rest _ _ h)
          hb1 (resetShaped_reset fb)
      · split at h
        · exact absurd h (by simp)
        · next acc2 hrecEq =>
          obtain ⟨g2, hg2, hs2⟩ :=
            shapedAt_mono (hrec _ _ _ _ hrecEq) hb1 (resetShaped_reset fb)
          exact shapedAt_mono (resetScan_resetRel recur hrec fieldName init rest _ _ h)
            hg2 hs2
    · have hmem' : b ∈ rest := by
        rcases List.mem_cons.mp hmem with h' | h'
        · exact absurd h'.symm hxb
        · exact h'
      split at h
      · exact ih _ _ _ _ hmem' hbf hgb hstatic h
      · split at h
        · exact ih _ _ _ _ hmem' hbf hgb hstatic h
        · next other hg =>
          split at h
          · have hrel1 : ResetRel acc
                (setField acc x (getNextResetField other false)) :=
              ResetRel.step (resetRel_refl acc) hg
            split at h
            · obtain ⟨fb', hfb', hcfg, _⟩ := hrel1.entry hgb
              exact ih _ _ _ _ hmem' hbf hfb' (by rw [hcfg]; exact hstatic) h
            · split at h
              · exact absurd h (by simp)
              · next acc2 hrecEq =>
                have hrel2 : ResetRel acc acc2 :=
                  ResetRel.trans hrel1 (hrec _ _ _ _ hrecEq)
                obtain ⟨fb', hfb', hcfg, _⟩ := hrel2.entry hgb
                exact ih _ _ _ _ hmem' hbf hfb' (by rw [hcfg]; exact hstatic) h
          · exact ih _ _ _ _ hmem' hbf hgb hstatic h

theorem resetFuel_succ (n : Nat) (acc : FormFields) (t i : String) :
    resetDependentFieldsFuel (n + 1) acc t i =
      resetScan (fun a b c => resetDependentFieldsFuel n a b c) t i acc
        (fieldNames acc) := rfl

theorem resetFuel_resetRel :
    ∀ (fuel : Nat) (acc : FormFields) (t i : String) (out : FormFields),
      resetDependentFieldsFuel fuel acc t i = some out → ResetRel acc out := by
  intro fuel
  induction fuel with
  | zero =>
    intro acc t i out h
    simp [resetDependentFieldsFuel] at h
  | succ n ih =>
    intro acc t i out h
    rw [resetFuel_succ] at h
    exact resetScan_resetRel _ (fun a t' i' o hh => ih a t' i' o hh) t i
      (fieldNames acc) acc out h

theorem resetFuel_resets :
    ∀ (fuel : Nat) (acc : FormFields) (t i : String) (out : FormFields)
      (b : String) (fb : FormField),
      resetDependentFieldsFuel fuel acc t i = some out →
      getField acc b = some fb → b ≠ t →
      staticDependsOnMatch fb.config.dependsOn t = true →
      ∃ g, getField out b = some g ∧ ResetShaped g := by
  intro fuel acc t i out b fb h hgb hbt hstatic
  cases fuel with
  | zero => simp [resetDependentFieldsFuel] at h
  | succ n =>
    rw [resetFuel_succ] at h
    exact resetScan_resets _ (fun a t' i' o hh => resetFuel_resetRel n a t' i' o hh)
      t i fb.config.dependsOn
      (fun g acc' hd => isDependent_of_static (by rw [hd]; exact hstatic) i acc')
      (fieldNames acc) acc out b fb (mem_fieldNames_of_getField hgb) hbt hgb
      rfl h

theorem resetFuel_resets_match :
    ∀ (fuel : Nat) (acc : FormFields) (t : String) (out : FormFields)
      (b : String) (fb : FormField),
      resetDependentFieldsFuel fuel acc t t = some out →
      getField acc b = some fb → b ≠ t →
      DependsOnMatches fb.config.dependsOn t →
      ∃ g, getField out b = some g ∧ ResetShaped g := by
  intro fuel acc t out b fb h hgb hbt hm
  cases fuel with
  | zero => simp [resetDependentFieldsFuel] at h
  | succ n =>
    rw [resetFuel_succ] at h
    exact resetScan_resets _ (fun a t' i' o hh => resetFuel_resetRel n a t' i' o hh)
      t t fb.config.dependsOn
      (fun g acc' hd => isDependent_of_matches (by rw [hd]; exact hm) acc')
      (fieldNames acc) acc out b fb (mem_fieldNames_of_getField hgb) hbt hgb
      rfl h

theorem resetScan_resets_two
    (recur : FormFields → String → String → Option FormFields)
    (hrecRel : ∀ a t i out, recur a t i = some out → ResetRel a out)
    (hrecOne : ∀ a t i out b fb, recur a t i = some out →
      getField a b = some fb → b ≠ t →
      staticDependsOnMatch fb.config.dependsOn t = true →
      ∃ g, getField out b = some g ∧ ResetShaped g)
    (fieldName init : String) :
    ∀ (names : List String) (acc out : FormFields) (b c : String)
      (fb fc : FormField),
      b ∈ names → b ≠ fieldName → b ≠ init →
      getField acc b = some fb →
      staticDependsOnMatch fb.config.dependsOn fieldName = true →
      c ≠ b →
      getField acc c = some fc →
      staticDependsOnMatch fc.config.dependsOn b = true →
      resetScan recur fieldName init acc names = some out →
      ∃ g, getField out c = some g ∧ ResetShaped g := by
  intro names
  induction names with
  | nil =>
    intro acc out b c fb fc hmem
    exact absurd hmem (List.not_mem_nil b)
  | cons x rest ih =>
    intro acc out b c fb fc hmem hbf hbi hgb hsb hcb hgc hsc h
    rw [resetScan_cons] at h
    by_cases hxb : x = b
    · subst hxb
      rw [if_neg hbf] at h
      rw [hgb] at h
      dsimp only at h
      rw [if_pos (isDependent_of_static hsb init acc), if_neg hbi] at h
      have hc1 : getField (setField acc x (getNextResetField fb false)) c = some fc := by
        rw [getField_setField_ne acc x _ c hcb]
        exact hgc
      split at h
      · exact absurd h (by simp)
      · next acc2 hrecEq =>
        obtain ⟨g2, hg2, hs2⟩ := hrecOne _ _ _ _ c fc hrecEq hc1 hcb hsc
        exact shapedAt_mono
          (resetScan_resetRel recur hrecRel fieldName init rest _ _ h) hg2 hs2
    · have hmem' : b ∈ rest := by
        rcases List.mem_cons.mp hmem with h' | h'
        · exact absurd h'.symm hxb
        · exact h'
      have step : ∀ (acc' : FormFields), ResetRel acc acc' →
          resetScan recur fieldName init acc' rest = some out →
          ∃ g, getField out c = some g ∧ ResetShaped g := by
        intro acc' hrel h'
        obtain ⟨fb', hfb', hcfgb, _⟩ := hrel.entry hgb
        obtain ⟨fc', hfc', hcfgc, _⟩ := hrel.entry hgc
        exact ih _ _ _ _ fb' fc' hmem' hbf hbi hfb'
          (by rw [hcfgb]; exact hsb) hcb hfc' (by rw [hcfgc]; exact hsc) h'
      split at h
      · exact step acc (resetRel_refl acc) h
      · split at h
        · exact step acc (resetRel_refl acc) h
        · next other hg =>
          split at h
          · have hrel1 : ResetRel acc
                (setField acc x (getNextResetField other false)) :=
              ResetRel.step (resetRel_refl acc) hg
            split at h
            · exact step _ hrel1 h
            · split at h
              · exact absurd h (by simp)
              · next acc2 hrecEq =>
                exact step acc2 (ResetRel.trans hrel1 (hrecRel _ _ _ _ hrecEq)) h
          · exact step acc (resetRel_refl acc) h

/-- C2 (amended): during the reset-on-change pass, every other field
whose `dependsOn` declaration matches the changed field--by name
equality, by list membership, or by a predicate declaration that
evaluates to `true` on the changed field name (the pass's initiator at
the top level) whatever its clean-value and form-values arguments
are--is replaced by its cleared reset state: errors emptied and raw,
clean and display values set to `undefined`, not to the field's default
value (the counterexample refutes the default-value clause), without any
validator running (the pass applies only `getNextResetField(·, false)`).
The reset recurses for the name-based forms: a field whose name or list
declaration matches a directly reset dependent field is cleared the same
way; a predicate declaration, by contrast, is evaluated on the pass's
initiator rather than on the reset field, so a field depending on a
reset field only through a predicate is not cleared by that reset (see
the counterexample's second part). -/
theorem c2_dependent_fields_cleared :
    (∀ (fuel : Nat) (fs : FormFields) (t b : String) (fb : FormField)
        (out : FormFields),
        resetDependentFields fuel fs t = some out →
        getField fs b = some fb → b ≠ t →
        DependsOnMatches fb.config.dependsOn t →
        ∃ g, getField out b = some g ∧ g.errors = [] ∧ g.rawValue = .undefined ∧
          g.cleanValue = .undefined ∧ g.value = .undefined) ∧
    (∀ (fuel : Nat) (fs : FormFields) (t b c : String) (fb fc : FormField)
        (out : FormFields),
        resetDependentFields fuel fs t = some out →
        getField fs b = some fb → b ≠ t →
        staticDependsOnMatch fb.config.dependsOn t = true →
        c ≠ b →
        getField fs c = some fc →
        staticDependsOnMatch fc.config.dependsOn b = true →
        ∃ g, getField out c = some g ∧ g.errors = [] ∧ g.rawValue = .undefined ∧
          g.cleanValue = .undefined ∧ g.value = .undefined) := by
  constructor
  · intro fuel fs t b fb out h hgb hbt hm
    obtain ⟨g, hg, hs⟩ := resetFuel_resets_match fuel fs t out b fb h hgb hbt hm
    exact ⟨g, hg, hs.1, hs.2.1, hs.2.2.1, hs.2.2.2⟩
  · intro fuel fs t b c fb fc out h hgb hbt hsb hcb hgc hsc
    cases fuel with
    | zero => simp [resetDependentFields, resetDependentFieldsFuel] at h
    | succ n =>
      rw [resetDependentFields, resetFuel_succ] at h
      obtain ⟨g, hg, hs⟩ := resetScan_resets_two
        (fun a b' c' => resetDependentFieldsFuel n a b' c')
        (fun a t' i' o hh => resetFuel_resetRel n a t' i' o hh)
        (fun a t' i' o b' fb' hh hgb' hbt' hst' =>
          resetFuel_resets n a t' i' o b' fb' hh hgb' hbt' hst')
        t t (fieldNames fs) fs out b c fb fc
        (mem_fieldNames_of_getField hgb) hbt hbt hgb hsb hcb hgc hsc h
      exact ⟨g, hg, hs.1, hs.2.1, hs.2.2.1, hs.2.2.2⟩

def w2FieldA : FormField := { config := { fieldType := .string } }

def w2FieldB : FormField :=
  { config := { fieldType := .string, dependsOn := .single "a",
                defaultValue := .str "B0" }
    defaultValue := .str "B0", rawValue := .str "y", cleanValue := .str "y",
    value := .str "y", errors := [⟨.invalid, .str "bad"⟩] }

def w2FieldC : FormField :=
  { config := { fieldType := .string, dependsOn := .single "b" }
    rawValue := .str "z", value := .str "z" }

def w2PredOnA : String → JSValue → FormValues → Bool := fun s _ _ => s == "a"

def w2FieldP : FormField :=
  { config := { fieldType := .string, dependsOn := .pred w2PredOnA }
    rawValue := .str "p0", value := .str "p0" }

def w2Fields : FormFields :=
  [("a", w2FieldA), ("b", w2FieldB), ("c", w2FieldC), ("p", w2FieldP)]

theorem c2_dependent_fields_cleared_witness :
    (∃ g, getField ((resetDependentFields 5 w2Fields "a").getD []) "b" = some g ∧
      g.errors = [] ∧ g.rawValue = .undefined ∧ g.cleanValue = .undefined ∧
      g.value = .undefined) ∧
    (∃ g, getField ((resetDependentFields 5 w2Fields "a").getD []) "p" = some g ∧
      g.errors = [] ∧ g.rawValue = .undefined ∧ g.cleanValue = .undefined ∧
      g.value = .undefined) ∧
    (∃ g, getField ((resetDependentFields 5 w2Fields "a").getD []) "c" = some g ∧
      g.errors = [] ∧ g.rawValue = .undefined ∧ g.cleanValue = .undefined ∧
      g.value = .undefined) :=
  ⟨c2_dependent_fields_cleared.1 5 w2Fields "a" "b" w2FieldB
      ((resetDependentFields 5 w2Fields "a").getD []) rfl rfl (by decide) rfl,
    c2_dependent_fields_cleared.1 5 w2Fields "a" "p" w2FieldP
      ((resetDependentFields 5 w2Fields "a").getD []) rfl rfl (by decide)
      (fun _ _ => rfl),
    c2_dependent_fields_cleared.2 5 w2Fields "a" "b" "c" w2FieldB w2FieldC
      ((resetDependentFields 5 w2Fields "a").getD []) rfl rfl (by decide) rfl
      (by decide) rfl rfl⟩

def c2DependsOnB : String → JSValue → FormValues → Bool := fun s _ _ => s == "b"

def c2qField : FormField :=
  { config := { fieldType := .string, dependsOn := .pred c2DependsOnB }
    rawValue := .str "q0", cleanValue := .str "q0", value := .str "q0" }

def c2xFields : FormFields := [("a", w2FieldA), ("b", w2FieldB), ("q", c2qField)]

/-- C2 (counterexample), two parts.  First: with field `b` declaring
`dependsOn: "a"` and default value `"B0"`, the pass triggered by a
change of `a` leaves `b` with `rawValue = undefined` while its default
value is still `"B0"`: `resetDependentFields` calls `getNextResetField`
with `isResetToDefault = false`, so dependent fields are cleared, not
reset to their defaults as the claim states.  Second: with field `q`
declaring a predicate `dependsOn` that returns `true` exactly on the
name `"b"`, the same pass resets `b` yet leaves `q` untouched, because
the recursive scan evaluates the predicate on the initiator field name
(`field.ts` line 1417), never on the reset field `b` itself--refuting
the claim's recursion clause for predicate declarations. -/
theorem c2_reset_to_default_counterexample :
    ((resetDependentFields 5 w2Fields "a").map
        (fun out => (getField out "b").map FormField.rawValue) =
      some (some .undefined) ∧
    (resetDependentFields 5 w2Fields "a").map
        (fun out => (getField out "b").map FormField.defaultValue) =
      some (some (.str "B0")) ∧
    JSValue.undefined ≠ JSValue.str "B0") ∧
    ((∀ v fv, c2DependsOnB "b" v fv = true) ∧
    (resetDependentFields 5 c2xFields "a").map
        (fun out => (getField out "b").map FormField.rawValue) =
      some (some .undefined) ∧
    (resetDependentFields 5 c2xFields "a").map
        (fun out => (getField out "q").map FormField.rawValue) =
      some (some (.str "q0")) ∧
    JSValue.str "q0" ≠ JSValue.undefined) :=
  ⟨⟨rfl, rfl, fun h => JSValue.noConfusion h⟩,
    ⟨fun _ _ => rfl, rfl, rfl, fun h => JSValue.noConfusion h⟩⟩

theorem getField_of_mem {fs : FormFields} {n : String}
    (h : n ∈ fieldNames fs) : ∃ f, getField fs n = some f := by
  induction fs with
  | nil => simp [fieldNames] at h
  | cons p t ih =>
    rw [getField_cons]
    by_cases hp : p.1 = n
    · exact ⟨p.2, by rw [if_pos hp]⟩
    · rw [if_neg hp]
      apply ih
      rcases List.mem_cons.mp h with h' | h'
      · exact absurd h'.symm hp
      · exact h'

/-- Every `dependsOn` declaration in the collection is name-based. -/
def StaticDeps (fs : FormFields) : Prop :=
  ∀ n f, getField fs n = some f → IsStaticDep f.config.dependsOn

/-- The dependency graph is acyclic, witnessed by a rank function that
strictly increases along each `dependsOn` edge (a topological order:
whenever the field `n` declares a dependency matching the trigger `t`,
`t` ranks strictly below `n`). -/
def RankedDeps (fs : FormFields) (rank : String → Nat) : Prop :=
  ∀ n f t, getField fs n = some f →
    staticDependsOnMatch f.config.dependsOn t = true → rank t < rank n

theorem resetScan_terminates
    (fs : FormFields) (rank : String → Nat) (N : Nat)
    (hstatic : StaticDeps fs) (hranked : RankedDeps fs rank)
    (recur : FormFields → String → String → Option FormFields)
    (t i : String) (fuelR : Nat)
    (hfuel : N ≤ rank t + (fuelR + 1))
    (hrec : ∀ (a : FormFields) (t' : String), ResetRel fs a →
      t' ∈ fieldNames fs → N ≤ rank t' + fuelR →
      ∀ i', ∃ out, recur a t' i' = some out ∧ ResetRel fs out ∧
        (∀ n, rank n ≤ rank t' → getField out n = getField a n)) :
    ∀ (names : List String) (acc : FormFields),
      names ⊆ fieldNames fs →
      ResetRel fs acc →
      ∃ out, resetScan recur t i acc names = some out ∧ ResetRel fs out ∧
        (∀ n, rank n ≤ rank t → getField out n = getField acc n) := by
  intro names
  induction names with
  | nil =>
    intro acc _ hrel
    exact ⟨acc, resetScan_nil recur t i acc, hrel, fun _ _ => rfl⟩
  | cons x rest ih =>
    intro acc hsub hrel
    have hxmem : x ∈ fieldNames fs := hsub (List.mem_cons_self x rest)
    have hsub' : rest ⊆ fieldNames fs := fun b hb => hsub (List.mem_cons_of_mem x hb)
    rw [resetScan_cons]
    by_cases hx : x = t
    · rw [if_pos hx]
      exact ih acc hsub' hrel
    · rw [if_neg hx]
      cases hgx : getField acc x with
      | none =>
        dsimp only
        exact ih acc hsub' hrel
      | some other =>
        dsimp only
        obtain ⟨f0, hf0⟩ := getField_of_mem hxmem
        obtain ⟨g0, hg0, hcfg, _⟩ := hrel.entry hf0
        have hother : other = g0 := by
          rw [hgx] at hg0
          exact Option.some.inj hg0
        subst hother
        have hdept : isDependentField i t other acc =
            staticDependsOnMatch other.config.dependsOn t := by
          apply isDependent_eq_static
          rw [hcfg]
          exact hstatic x f0 hf0
        cases hsm : staticDependsOnMatch other.config.dependsOn t with
        | false =>
          rw [hdept, hsm, if_neg (by simp)]
          exact ih acc hsub' hrel
        | true =>
          rw [hdept, hsm, if_pos rfl]
          have hrankx : rank t < rank x := by
            apply hranked x f0 t hf0
            rw [← hcfg]
            exact hsm
          have hrel1 : ResetRel fs (setField acc x (getNextResetField other false)) :=
            ResetRel.step hrel hg0
          have hpres1 : ∀ n, rank n ≤ rank t →
              getField (setField acc x (getNextResetField other false)) n =
                getField acc n := by
            intro n hn
            apply getField_setField_ne
            intro hnx
            rw [hnx] at hn
            omega
          by_cases hxi : x = i
          · rw [if_pos hxi]
            obtain ⟨out, hout, hrelOut, hpres⟩ := ih _ hsub' hrel1
            exact ⟨out, hout, hrelOut, fun n hn => (hpres n hn).trans (hpres1 n hn)⟩
          · rw [if_neg hxi]
            obtain ⟨out1, hout1, hrel2, hpres2⟩ :=
              hrec _ x hrel1 hxmem (by omega) t
            rw [hout1]
            dsimp only
            obtain ⟨out, hout, hrelOut, hpres⟩ := ih out1 hsub' hrel2
            refine ⟨out, hout, hrelOut, fun n hn => ?_⟩
            rw [hpres n hn, hpres2 n (by omega), hpres1 n hn]

theorem resetFuel_terminates
    (fs : FormFields) (rank : String → Nat) (N : Nat)
    (hstatic : StaticDeps fs) (hranked : RankedDeps fs rank)
    (hbound : ∀ n, n ∈ fieldNames fs → rank n < N) :
    ∀ (fuel : Nat) (acc : FormFields) (t i : String),
      ResetRel fs acc → t ∈ fieldNames fs → N ≤ rank t + fuel →
      ∃ out, resetDependentFieldsFuel fuel acc t i = some out ∧
        ResetRel fs out ∧
        (∀ n, rank n ≤ rank t → getField out n = getField acc n) := by
  intro fuel
  induction fuel with
  | zero =>
    intro acc t i hrel ht hfuel
    have := hbound t ht
    omega
  | succ m ih =>
    intro acc t i hrel ht hfuel
    rw [resetFuel_succ]
    exact resetScan_terminates fs rank N hstatic hranked _ t i m hfuel
      (fun a t' hrela ht' hf' i' => ih a t' i' hrela ht' hf')
      (fieldNames acc) acc (by rw [hrel.1]; exact fun b hb => hb) hrel

/-- C3: with name-based dependency declarations whose graph is acyclic
(witnessed by a rank function strictly increasing along dependency
edges and bounded by `N`, the depth bound), the dependency-reset pass
started at field `A` terminates within fuel `N` (each recursion level
strictly climbs the rank order, so the recursion depth is bounded by the
dependency graph's depth), and the entry of the original initiator `A`
is untouched: `A` is never reset, and--since only a freshly reset field
ever becomes a new trigger--never used as a trigger again within the
pass. -/
theorem c3_initiator_guard_and_termination :
    ∀ (fs : FormFields) (A : String) (rank : String → Nat) (N fuel : Nat),
      StaticDeps fs →
      RankedDeps fs rank →
      (∀ n, n ∈ fieldNames fs → rank n < N) →
      A ∈ fieldNames fs →
      N ≤ fuel →
      ∃ out, resetDependentFields fuel fs A = some out ∧
        getField out A = getField fs A := by
  intro fs A rank N fuel hs hr hb hA hf
  obtain ⟨out, hout, _, hpres⟩ := resetFuel_terminates fs rank N hs hr hb fuel fs A A
    (resetRel_refl fs) hA (by omega)
  exact ⟨out, hout, hpres A (Nat.le_refl _)⟩

def w3FieldA : FormField := { config := { fieldType := .string } }

def w3FieldB : FormField :=
  { config := { fieldType := .string, dependsOn := .single "a" } }

def w3FieldC : FormField :=
  { config := { fieldType := .string, dependsOn := .many ["b"] } }

def w3Fields : FormFields :=
  [("a", w3FieldA), ("b", w3FieldB), ("c", w3FieldC)]

def w3Rank (s : String) : Nat :=
  if s = "a" then 0 else if s = "b" then 1 else 2

theorem c3_initiator_guard_and_termination_witness :
    ∃ out, resetDependentFields 3 w3Fields "a" = some out ∧
      getField out "a" = getField w3Fields "a" := by
  apply c3_initiator_guard_and_termination w3Fields "a" w3Rank 3 3
  · intro n f h
    simp only [w3Fields, getField_cons] at h
    split_ifs at h with h1 h2 h3
    · cases Option.some.inj h; exact trivial
    · cases Option.some.inj h; exact trivial
    · cases Option.some.inj h; exact trivial
    · simp [getField] at h
  · intro n f t h hm
    simp only [w3Fields, getField_cons] at h
    split_ifs at h with h1 h2 h3
    · cases Option.some.inj h
      exact absurd hm (by simp [w3FieldA, staticDependsOnMatch])
    · cases Option.some.inj h
      have ht : t = "a" := by simpa [w3FieldB, staticDependsOnMatch] using hm
      subst ht
      rw [← h2]
      decide
    · cases Option.some.inj h
      have ht : t = "b" := by simpa [w3FieldC, staticDependsOnMatch] using hm
      subst ht
      rw [← h3]
      decide
    · simp [getField] at h
  · intro n _
    unfold w3Rank
    split_ifs <;> omega
  · decide
  · decide

theorem getField_map (F : String → FormField → FormField) (fs : FormFields)
    (n : String) :
    getField (fs.map (fun p => (p.1, F p.1 p.2))) n = (getField fs n).map (F n) := by
  induction fs with
  | nil => rfl
  | cons p t ih =>
    rw [List.map_cons, getField_cons, getField_cons]
    by_cases hp : p.1 = n
    · simp [hp]
    · simp [hp, ih]

theorem getField_eq_some_iff_mem {fs : FormFields}
    (hnd : (fieldNames fs).Nodup) {n : String} {f : FormField} :
    getField fs n = some f ↔ (n, f) ∈ fs := by
  induction fs with
  | nil => simp [getField]
  | cons p t ih =>
    have hhead : p.1 ∉ fieldNames t ∧ (fieldNames t).Nodup :=
      List.nodup_cons.mp hnd
    rw [getField_cons]
    by_cases hp : p.1 = n
    · rw [if_pos hp]
      constructor
      · intro h
        cases Option.some.inj h
        exact List.mem_cons.mpr (Or.inl (by rw [← hp]))
      · intro h
        rcases List.mem_cons.mp h with h | h
        · subst h
          rfl
        · exact absurd (hp ▸ List.mem_map.mpr ⟨(n, f), h, rfl⟩) hhead.1
    · rw [if_neg hp, ih hhead.2]
      constructor
      · exact fun h => List.mem_cons_of_mem p h
      · intro h
        rcases List.mem_cons.mp h with h | h
        · exact absurd (congrArg Prod.fst h).symm hp
        · exact h

theorem list_any_map {α β : Type} (f : α → β) (l : List α) (p : β → Bool) :
    (l.map f).any p = l.any (fun a => p (f a)) := by
  induction l with
  | nil => rfl
  | cons x t ih => simp [List.any_cons, ih]

/-- C8: `validateForm` returns `true` iff no validated field's child
forms report a failure and, after the pass, no validated field holds an
error whose type is different from `server` (each field's post-pass
error list is freshly computed by `executeFieldValidatorAsync`; errors
present before the pass, such as pure `server` errors, enter the result
only through re-validation). -/
theorem c8_validate_form_true_iff :
    ∀ (C : Collaborators) (fs : FormFields) (opts : ValidateOptions),
      (fieldNames fs).Nodup →
      ((validateForm C fs opts).1 = true ↔
        ∀ (name : String) (f : FormField), getField fs name = some f →
          isValidatedField fs opts name = true →
          C.runChildFormsValidation name f = false ∧
          ∀ g, getField (validateForm C fs opts).2 name = some g →
            ∀ e ∈ g.errors, e.type = .server) := by
  intro C fs opts hnd
  have hfst : (validateForm C fs opts).1 =
      !fs.any (fun p => (validateFormProcessOne C fs opts p.1 p.2).1) := by
    show (!((fs.map (fun p => (p.1, validateFormProcessOne C fs opts p.1 p.2))).any
        (fun p => p.2.1))) = _
    rw [list_any_map]
  have hsnd : ∀ (name : String), getField (validateForm C fs opts).2 name =
      (getField fs name).map
        (fun f => (validateFormProcessOne C fs opts name f).2) := by
    intro name
    show getField ((fs.map (fun p => (p.1, validateFormProcessOne C fs opts p.1 p.2))).map
        (fun p => (p.1, p.2.2))) name = _
    rw [List.map_map]
    exact getField_map (fun n f => (validateFormProcessOne C fs opts n f).2) fs name
  constructor
  · intro hok name f hget hvalid
    have hmem : (name, f) ∈ fs := (getField_eq_some_iff_mem hnd).mp hget
    have hany : fs.any (fun p => (validateFormProcessOne C fs opts p.1 p.2).1) = false := by
      rw [hfst] at hok
      simpa using hok
    have hpfalse : (validateFormProcessOne C fs opts name f).1 = false := by
      rcases Bool.eq_false_or_eq_true ((validateFormProcessOne C fs opts name f).1) with h | h
      · exact absurd (List.any_eq_true.mpr ⟨(name, f), hmem, h⟩)
          (by rw [hany]; exact Bool.false_ne_true)
      · exact h
    rw [validateFormProcessOne, hvalid] at hpfalse
    simp only [Bool.not_true, Bool.false_eq_true, if_false] at hpfalse
    rw [Bool.or_eq_false_iff] at hpfalse
    refine ⟨hpfalse.1, ?_⟩
    intro g hg e he
    rw [hsnd name, hget] at hg
    have hgeq : g = (validateFormProcessOne C fs opts name f).2 :=
      (Option.some.inj hg).symm
    rw [validateFormProcessOne, hvalid] at hgeq
    simp only [Bool.not_true, Bool.false_eq_true, if_false] at hgeq
    have hnone := hpfalse.2
    rw [List.any_eq_false] at hnone
    have hns := hnone e (by rw [hgeq] at he; exact he)
    simpa using hns
  · intro hall
    rw [hfst, Bool.not_eq_true', List.any_eq_false]
    rintro ⟨n0, f0⟩ hp
    rw [Bool.not_eq_true]
    have hget : getField fs n0 = some f0 := (getField_eq_some_iff_mem hnd).mpr hp
    by_cases hv : isValidatedField fs opts n0 = true
    · obtain ⟨h1, h2⟩ := hall n0 f0 hget hv
      have hg : getField (validateForm C fs opts).2 n0 =
          some ((validateFormProcessOne C fs opts n0 f0).2) := by
        rw [hsnd n0, hget]
        rfl
      have herr := h2 _ hg
      rw [validateFormProcessOne, hv] at herr ⊢
      simp only [Bool.not_true, Bool.false_eq_true, if_false] at herr ⊢
      rw [Bool.or_eq_false_iff]
      refine ⟨h1, ?_⟩
      rw [List.any_eq_false]
      intro e he
      simpa using herr e he
    · have hv' : isValidatedField fs opts n0 = false := Bool.of_not_eq_true hv
      rw [validateFormProcessOne, hv']
      simp

def c8Field : FormField :=
  { config := { fieldType := .string }, rawValue := .str "x" }

def c8Fields : FormFields := [("a", c8Field)]

theorem c8_validate_form_true_iff_witness :
    (validateForm sampleCollab c8Fields ⟨none, none⟩).1 = true := by
  apply (c8_validate_form_true_iff sampleCollab c8Fields ⟨none, none⟩ (by decide)).mpr
  intro name f hget hv
  simp only [c8Fields, getField_cons] at hget
  split_ifs at hget with h1
  · cases Option.some.inj hget
    refine ⟨rfl, ?_⟩
    intro g hg e he
    rw [← h1] at hg
    rw [show getField (validateForm sampleCollab c8Fields ⟨none, none⟩).2 "a" =
        some ((validateFormProcessOne sampleCollab c8Fields ⟨none, none⟩ "a" c8Field).2)
      from rfl] at hg
    cases Option.some.inj hg
    exact absurd he (List.not_mem_nil e)
  · simp [getField] at hget

/-- The type validators of `C` never call `scheduleValidation`. -/
def NoSchedTypeValidators (C : Collaborators) : Prop :=
  ∀ ty v fv, (C.interactiveTypeValidator ty v fv).2 = [] ∧
    (C.passiveTypeValidator ty v fv).2 = []

/-- No custom validator configured on a field other than the changed one
ever calls `scheduleValidation`.  The changed field's own validator--the
one whose scheduling produced the flags--is exempt, since the rescan
skips the changed field and never runs it. -/
def NoSchedValidatorsExcept (fs : FormFields) (changed : String) : Prop :=
  ∀ n f valFn v fv, getField fs n = some f → n ≠ changed →
    f.config.validator = some valFn → (valFn v fv).2 = []

theorem executeFieldTypeValidator_snd (C : Collaborators) (fs : FormFields)
    (f : FormField) (sv : JSValue) (hC : NoSchedTypeValidators C) :
    (executeFieldTypeValidator C fs f sv).2 = [] := by
  unfold executeFieldTypeValidator
  split
  · rfl
  · dsimp only
    by_cases hi : f.config.fieldType.isInteractive
    · simp only [hi, if_true]
      cases hre : C.interactiveTypeValidator f.config.fieldType sv (getFormValues fs) with
      | mk resp sched =>
        have hs : sched = [] := by
          have := (hC f.config.fieldType sv (getFormValues fs)).1
          rw [hre] at this
          exact this
        subst hs
        cases resp <;> rfl
    · simp only [hi, if_false]
      by_cases hp : f.config.fieldType.isPassive
      · simp only [hp, if_true]
        cases hre : C.passiveTypeValidator f.config.fieldType sv (getFormValues fs) with
        | mk resp sched =>
          have hs : sched = [] := by
            have := (hC f.config.fieldType sv (getFormValues fs)).2
            rw [hre] at this
            exact this
          subst hs
          cases resp <;> rfl
      · simp only [hp, if_false]
        rfl

theorem applySchedules_nil (fs : FormFields) : applySchedules fs [] = fs := rfl

theorem executeFieldValidator_snd_eq (C : Collaborators) (fs : FormFields)
    (n : String) (v : JSValue) (hC : NoSchedTypeValidators C)
    (hV : ∀ f valFn v' fv, getField fs n = some f →
      f.config.validator = some valFn → (valFn v' fv).2 = []) :
    (executeFieldValidator C fs n v).2 = fs := by
  unfold executeFieldValidator
  cases hg : getField fs n with
  | none => rfl
  | some field =>
    dsimp only
    rw [executeFieldTypeValidator_snd C fs field _ hC, applySchedules_nil]
    split
    · split
      · rfl
      · next valFn hval =>
        have hsched : (valFn (sanitizeFieldValue field.config.fieldType v)
            (getFormValues fs)).2 = [] :=
          hV field valFn _ _ hg hval
        split <;> rw [hsched] <;> rfl
    · rfl

theorem executeFieldValidator_fst_config (C : Collaborators) (fs : FormFields)
    (n : String) (v : JSValue) (field : FormField)
    (hg : getField fs n = some field) :
    (executeFieldValidator C fs n v).1.config = field.config := by
  unfold executeFieldValidator
  rw [hg]
  dsimp only
  split
  · split
    · exact getNextValidatedField_config _ _ _ _
    · split
      · exact getNextValidatedField_config _ _ _ _
      · exact getNextValidatedField_config _ _ _ _
  · exact getNextValidatedField_config _ _ _ _

/-- Relates a collection to a later state whose entries kept their keys
and configurations (values, errors and meta flags may differ). -/
def CfgRel (fs acc : FormFields) : Prop :=
  fieldNames acc = fieldNames fs ∧
  ∀ n f', getField acc n = some f' →
    ∃ f, getField fs n = some f ∧ f'.config = f.config

theorem cfgRel_refl (fs : FormFields) : CfgRel fs fs :=
  ⟨rfl, fun _ f' h => ⟨f', h, rfl⟩⟩

theorem CfgRel.setField {fs acc : FormFields} {n : String} {f' g : FormField}
    (h : CfgRel fs acc) (hg : getField acc n = some f')
    (hcfg : g.config = f'.config) : CfgRel fs (setField acc n g) := by
  refine ⟨(fieldNames_setField acc n g).trans h.1, fun m fm hm => ?_⟩
  by_cases hmn : m = n
  · subst hmn
    rw [getField_setField_self acc m g (mem_fieldNames_of_getField hg)] at hm
    cases Option.some.inj hm
    obtain ⟨f, hf, hcfg'⟩ := h.2 m f' hg
    exact ⟨f, hf, hcfg.trans hcfg'⟩
  · rw [getField_setField_ne acc n g m hmn] at hm
    exact h.2 m fm hm

theorem noSchedExcept_of_cfgRel {fs acc : FormFields} {changed : String}
    (hV : NoSchedValidatorsExcept fs changed) (h : CfgRel fs acc) :
    NoSchedValidatorsExcept acc changed := by
  intro n f' valFn v fv hg hnc hval
  obtain ⟨f, hf, hcfg⟩ := h.2 n f' hg
  exact hV n f valFn v fv hf hnc (by rw [← hcfg]; exact hval)

theorem setField_setField (fs : FormFields) (n : String) (g g' : FormField) :
    setField (setField fs n g) n g' = setField fs n g' := by
  unfold setField
  rw [List.map_map]
  apply List.map_congr_left
  intro p _
  by_cases h : p.1 = n <;> simp [h]

theorem setField_id_of_not_mem :
    ∀ (fs : FormFields) (n : String) (g : FormField),
      n ∉ fieldNames fs → setField fs n g = fs := by
  intro fs
  induction fs with
  | nil => intro n g _; rfl
  | cons p t ih =>
    intro n g h
    have h1 : ¬ p.1 = n := fun hh => h (by rw [← hh]; exact List.mem_cons_self _ _)
    show (if p.1 = n then (p.1, g) else p) :: setField t n g = p :: t
    rw [if_neg h1, ih n g (fun hh => h (List.mem_cons_of_mem _ hh))]

theorem fieldNames_scheduleFieldValidation (fs : FormFields) (a : String) :
    fieldNames (scheduleFieldValidation fs a) = fieldNames fs := by
  unfold scheduleFieldValidation
  cases getField fs a with
  | none => rfl
  | some f => exact fieldNames_setField fs a _

theorem getFormValues_setField :
    ∀ (fs : FormFields) (n : String) (g f : FormField),
      (fieldNames fs).Nodup → getField fs n = some f → g.value = f.value →
      getFormValues (setField fs n g) = getFormValues fs := by
  intro fs
  induction fs with
  | nil =>
    intro n g f _ hg _
    exact absurd hg (by simp [getField])
  | cons p t ih =>
    intro n g f hnd hg hval
    have hnd' : ¬ p.1 ∈ fieldNames t ∧ (fieldNames t).Nodup :=
      List.nodup_cons.mp hnd
    by_cases h1 : p.1 = n
    · have hf : f = p.2 := by
        rw [getField_cons, if_pos h1] at hg
        exact (Option.some.inj hg).symm
      show getFormValues ((if p.1 = n then (p.1, g) else p) :: setField t n g) =
        getFormValues (p :: t)
      rw [if_pos h1, setField_id_of_not_mem t n g (h1 ▸ hnd'.1)]
      show (p.1, g.value) :: getFormValues t = (p.1, p.2.value) :: getFormValues t
      rw [hval, hf]
    · rw [getField_cons, if_neg h1] at hg
      show getFormValues ((if p.1 = n then (p.1, g) else p) :: setField t n g) =
        getFormValues (p :: t)
      rw [if_neg h1]
      show (p.1, p.2.value) :: getFormValues (setField t n g) =
        (p.1, p.2.value) :: getFormValues t
      rw [ih n g f hnd'.2 hg hval]

theorem getFormValues_scheduleFieldValidation (fs : FormFields) (a : String)
    (hnd : (fieldNames fs).Nodup) :
    getFormValues (scheduleFieldValidation fs a) = getFormValues fs := by
  unfold scheduleFieldValidation
  cases hg : getField fs a with
  | none => rfl
  | some f => exact getFormValues_setField fs a _ f hnd hg rfl

theorem getFormValues_applySchedules (l : List String) :
    ∀ (fs : FormFields), (fieldNames fs).Nodup →
      getFormValues (applySchedules fs l) = getFormValues fs := by
  induction l with
  | nil => intro fs _; rfl
  | cons a t ih =>
    intro fs hnd
    show getFormValues (applySchedules (scheduleFieldValidation fs a) t) = _
    rw [ih _ (by rw [fieldNames_scheduleFieldValidation]; exact hnd),
      getFormValues_scheduleFieldValidation fs a hnd]

theorem getNextValidatedField_value (es : List FieldError)
    (vr : Option ValidationResult) (f : FormField) (cv : JSValue) :
    (getNextValidatedField es vr f cv).value = f.value := by
  by_cases hemp : (handleFieldValidationResult es f.config vr).isEmpty <;>
    simp [getNextValidatedField, hemp, getNextErrorsFreeField, getNextErredField]

theorem executeFieldValidator_fst_value (C : Collaborators) (fs : FormFields)
    (n : String) (v : JSValue) (field : FormField)
    (hg : getField fs n = some field) :
    (executeFieldValidator C fs n v).1.value = field.value := by
  unfold executeFieldValidator
  rw [hg]
  dsimp only
  split
  · split
    · exact getNextValidatedField_value _ _ _ _
    · split
      · exact getNextValidatedField_value _ _ _ _
      · exact getNextValidatedField_value _ _ _ _
  · exact getNextValidatedField_value _ _ _ _

theorem checkIsSkipField_congr (fs acc : FormFields) (n : String)
    (hg : getField acc n = getField fs n)
    (hfv : getFormValues acc = getFormValues fs) :
    checkIsSkipField acc n = checkIsSkipField fs n := by
  unfold checkIsSkipField
  rw [hg, hfv]

theorem executeFieldValidator_fst_congr (C : Collaborators) (fs acc : FormFields)
    (n : String) (v : JSValue)
    (hg : getField acc n = getField fs n)
    (hfv : getFormValues acc = getFormValues fs)
    (hnda : (fieldNames acc).Nodup) (hndf : (fieldNames fs).Nodup) :
    (executeFieldValidator C acc n v).1 = (executeFieldValidator C fs n v).1 := by
  unfold executeFieldValidator
  rw [hg]
  cases hgf : getField fs n with
  | none => rfl
  | some field =>
    dsimp only
    have hstage : executeFieldTypeValidator C acc field
        (sanitizeFieldValue field.config.fieldType v) =
      executeFieldTypeValidator C fs field
        (sanitizeFieldValue field.config.fieldType v) := by
      unfold executeFieldTypeValidator
      rw [hfv]
    rw [hstage]
    have hfv1 : getFormValues (applySchedules acc
          (executeFieldTypeValidator C fs field
            (sanitizeFieldValue field.config.fieldType v)).2) =
        getFormValues (applySchedules fs
          (executeFieldTypeValidator C fs field
            (sanitizeFieldValue field.config.fieldType v)).2) := by
      rw [getFormValues_applySchedules _ acc hnda,
        getFormValues_applySchedules _ fs hndf, hfv]
    rw [hfv1]
    split
    · split
      · rfl
      · split
        · rfl
        · rfl
    · rfl

theorem rescanStep_changed (C : Collaborators) (acc : FormFields) (n : String) :
    rescanStep C n acc n = acc := by
  unfold rescanStep
  rw [if_pos rfl]

theorem rescanStep_of_none (C : Collaborators) (changed : String)
    (acc : FormFields) (otherName : String) (h : otherName ≠ changed)
    (hg : getField acc otherName = none) :
    rescanStep C changed acc otherName = acc := by
  unfold rescanStep
  rw [if_neg h, hg]

theorem rescanStep_of_unscheduled (C : Collaborators) (changed : String)
    (acc : FormFields) (otherName : String) (f : FormField)
    (h : otherName ≠ changed) (hg : getField acc otherName = some f)
    (hf : f.isValidationScheduled = false) :
    rescanStep C changed acc otherName = acc := by
  unfold rescanStep
  rw [if_neg h, hg]
  dsimp only
  rw [hf]
  rfl

theorem rescanStep_of_scheduled (C : Collaborators) (changed : String)
    (acc : FormFields) (otherName : String) (f : FormField)
    (h : otherName ≠ changed) (hg : getField acc otherName = some f)
    (hf : f.isValidationScheduled = true)
    (hC : NoSchedTypeValidators C)
    (hV : ∀ f' valFn v fv, getField acc otherName = some f' →
      f'.config.validator = some valFn → (valFn v fv).2 = []) :
    rescanStep C changed acc otherName =
      if checkIsSkipField acc otherName then
        setField acc otherName { f with isValidationScheduled := false }
      else
        setField acc otherName
          { (executeFieldValidator C acc otherName (rescanFilteredValue f)).1 with
            isValidationScheduled := false } := by
  unfold rescanStep
  rw [if_neg h, hg]
  dsimp only
  rw [hf, if_pos rfl]
  by_cases hskip : checkIsSkipField acc otherName
  · rw [if_pos hskip, if_pos hskip, hg]
  · rw [if_neg hskip, if_neg hskip]
    rw [executeFieldValidator_snd_eq C acc otherName _ hC hV]
    rw [getField_setField_self acc otherName _ (mem_fieldNames_of_getField hg)]
    dsimp only
    rw [setField_setField]

theorem rescanStep_getField_ne (C : Collaborators) (changed : String)
    (acc : FormFields) (otherName m : String) (hne : m ≠ otherName)
    (hC : NoSchedTypeValidators C)
    (hV : NoSchedValidatorsExcept acc changed) :
    getField (rescanStep C changed acc otherName) m = getField acc m := by
  by_cases h1 : otherName = changed
  · subst h1
    rw [rescanStep_changed]
  · cases hg : getField acc otherName with
    | none => rw [rescanStep_of_none C changed acc otherName h1 hg]
    | some f =>
      cases hf : f.isValidationScheduled with
      | false => rw [rescanStep_of_unscheduled C changed acc otherName f h1 hg hf]
      | true =>
        rw [rescanStep_of_scheduled C changed acc otherName f h1 hg hf hC
          (fun f' valFn v fv hgx hval => hV otherName f' valFn v fv hgx h1 hval)]
        by_cases hskip : checkIsSkipField acc otherName
        · rw [if_pos hskip, getField_setField_ne acc otherName _ m hne]
        · rw [if_neg hskip, getField_setField_ne acc otherName _ m hne]

theorem rescanStep_cfgRel {fs : FormFields} (C : Collaborators) (changed : String)
    {acc : FormFields} (otherName : String) (hC : NoSchedTypeValidators C)
    (hVfs : NoSchedValidatorsExcept fs changed) (h : CfgRel fs acc) :
    CfgRel fs (rescanStep C changed acc otherName) := by
  have hV := noSchedExcept_of_cfgRel hVfs h
  by_cases h1 : otherName = changed
  · subst h1
    rw [rescanStep_changed]
    exact h
  · cases hg : getField acc otherName with
    | none =>
      rw [rescanStep_of_none C changed acc otherName h1 hg]
      exact h
    | some f =>
      cases hf : f.isValidationScheduled with
      | false =>
        rw [rescanStep_of_unscheduled C changed acc otherName f h1 hg hf]
        exact h
      | true =>
        rw [rescanStep_of_scheduled C changed acc otherName f h1 hg hf hC
          (fun f' valFn v fv hgx hval => hV otherName f' valFn v fv hgx h1 hval)]
        by_cases hskip : checkIsSkipField acc otherName
        · rw [if_pos hskip]
          exact h.setField hg rfl
        · rw [if_neg hskip]
          exact h.setField hg (executeFieldValidator_fst_config C acc otherName _ f hg)

/-- Relates a collection to a later rescan state: keys, per-field
configurations and the aggregated form values are preserved (the rescan
replaces whole entries but validation never changes a display value). -/
def RescanRel (fs acc : FormFields) : Prop :=
  getFormValues acc = getFormValues fs ∧ CfgRel fs acc

theorem rescanRel_refl (fs : FormFields) : RescanRel fs fs :=
  ⟨rfl, cfgRel_refl fs⟩

theorem rescanRel_setField {fs acc : FormFields} {n : String} {f' g : FormField}
    (h : RescanRel fs acc) (hnd : (fieldNames fs).Nodup)
    (hg : getField acc n = some f') (hcfg : g.config = f'.config)
    (hval : g.value = f'.value) : RescanRel fs (setField acc n g) := by
  refine ⟨?_, h.2.setField hg hcfg⟩
  rw [getFormValues_setField acc n g f' (by rw [h.2.1]; exact hnd) hg hval]
  exact h.1

theorem rescanStep_rescanRel {fs : FormFields} (C : Collaborators)
    (changed : String) {acc : FormFields} (otherName : String)
    (hC : NoSchedTypeValidators C)
    (hVfs : NoSchedValidatorsExcept fs changed)
    (hnd : (fieldNames fs).Nodup) (h : RescanRel fs acc) :
    RescanRel fs (rescanStep C changed acc otherName) := by
  have hV := noSchedExcept_of_cfgRel hVfs h.2
  by_cases h1 : otherName = changed
  · subst h1
    rw [rescanStep_changed]
    exact h
  · cases hg : getField acc otherName with
    | none =>
      rw [rescanStep_of_none C changed acc otherName h1 hg]
      exact h
    | some f =>
      cases hf : f.isValidationScheduled with
      | false =>
        rw [rescanStep_of_unscheduled C changed acc otherName f h1 hg hf]
        exact h
      | true =>
        rw [rescanStep_of_scheduled C changed acc otherName f h1 hg hf hC
          (fun f' valFn v fv hgx hval => hV otherName f' valFn v fv hgx h1 hval)]
        by_cases hskip : checkIsSkipField acc otherName
        · rw [if_pos hskip]
          exact rescanRel_setField h hnd hg rfl rfl
        · rw [if_neg hskip]
          exact rescanRel_setField h hnd hg
            (executeFieldValidator_fst_config C acc otherName _ f hg)
            (executeFieldValidator_fst_value C acc otherName _ f hg)

theorem rescanFold_keeps_cleared {fs : FormFields} (C : Collaborators)
    (changed : String) (hC : NoSchedTypeValidators C)
    (hVfs : NoSchedValidatorsExcept fs changed) :
    ∀ (names : List String) (acc : FormFields) (name : String) (g : FormField),
      CfgRel fs acc →
      getField acc name = some g → g.isValidationScheduled = false →
      ∃ g', getField (names.foldl (rescanStep C changed) acc) name = some g' ∧
        g'.isValidationScheduled = false := by
  intro names
  induction names with
  | nil => intro acc name g _ hg hflag; exact ⟨g, hg, hflag⟩
  | cons x rest ih =>
    intro acc name g h hg hflag
    have hV := noSchedExcept_of_cfgRel hVfs h
    have hcfg' := rescanStep_cfgRel C changed x hC hVfs h
    by_cases hx : name = x
    · subst hx
      by_cases h1 : name = changed
      · subst h1
        rw [List.foldl_cons, rescanStep_changed]
        exact ih acc _ g h hg hflag
      · rw [List.foldl_cons, rescanStep_of_unscheduled C changed acc name g h1 hg hflag]
        exact ih acc _ g h hg hflag
    · rw [List.foldl_cons]
      have hpres : getField (rescanStep C changed acc x) name = some g := by
        rw [rescanStep_getField_ne C changed acc x name hx hC hV]
        exact hg
      exact ih _ _ g hcfg' hpres hflag

theorem rescanFold_clears {fs : FormFields} (C : Collaborators)
    (changed : String) (hC : NoSchedTypeValidators C)
    (hVfs : NoSchedValidatorsExcept fs changed) :
    ∀ (names : List String) (acc : FormFields) (name : String) (f : FormField),
      CfgRel fs acc →
      name ∈ names → name ≠ changed →
      getField acc name = some f → f.isValidationScheduled = true →
      ∃ g, getField (names.foldl (rescanStep C changed) acc) name = some g ∧
        g.isValidationScheduled = false := by
  intro names
  induction names with
  | nil =>
    intro acc name f _ hmem
    exact absurd hmem (List.not_mem_nil name)
  | cons x rest ih =>
    intro acc name f h hmem hnc hg hflag
    have hV := noSchedExcept_of_cfgRel hVfs h
    have hcfg' := rescanStep_cfgRel C changed x hC hVfs h
    by_cases hx : x = name
    · subst hx
      rw [List.foldl_cons, rescanStep_of_scheduled C changed acc x f hnc hg hflag hC
        (fun f' valFn v fv hgx hval => hV x f' valFn v fv hgx hnc hval)]
      by_cases hskip : checkIsSkipField acc x
      · rw [if_pos hskip]
        have hset : getField (setField acc x { f with isValidationScheduled := false }) x =
            some { f with isValidationScheduled := false } :=
          getField_setField_self acc x _ (mem_fieldNames_of_getField hg)
        exact rescanFold_keeps_cleared C changed hC hVfs rest _ x _
          (h.setField hg rfl) hset rfl
      · rw [if_neg hskip]
        have hset : getField (setField acc x
            { (executeFieldValidator C acc x (rescanFilteredValue f)).1 with
              isValidationScheduled := false }) x =
            some { (executeFieldValidator C acc x (rescanFilteredValue f)).1 with
              isValidationScheduled := false } :=
          getField_setField_self acc x _ (mem_fieldNames_of_getField hg)
        exact rescanFold_keeps_cleared C changed hC hVfs rest _ x _
          (h.setField hg (executeFieldValidator_fst_config C acc x _ f hg)) hset rfl
    · rw [List.foldl_cons]
      have hmem' : name ∈ rest := by
        rcases List.mem_cons.mp hmem with h' | h'
        · exact absurd h'.symm hx
        · exact h'
      have hpres : getField (rescanStep C changed acc x) name = some f := by
        rw [rescanStep_getField_ne C changed acc x name (fun hh => hx hh.symm) hC hV]
        exact hg
      exact ih _ _ f hcfg' hmem' hnc hpres hflag

theorem rescanFold_keeps_entry {fs : FormFields} (C : Collaborators)
    (changed : String) (hC : NoSchedTypeValidators C)
    (hVfs : NoSchedValidatorsExcept fs changed)
    (hnd : (fieldNames fs).Nodup) :
    ∀ (names : List String) (acc : FormFields) (name : String) (g : FormField),
      RescanRel fs acc →
      getField acc name = some g → g.isValidationScheduled = false →
      getField (names.foldl (rescanStep C changed) acc) name = some g := by
  intro names
  induction names with
  | nil => intro acc name g _ hg _; exact hg
  | cons x rest ih =>
    intro acc name g h hg hflag
    have hV := noSchedExcept_of_cfgRel hVfs h.2
    have hrel' := rescanStep_rescanRel C changed x hC hVfs hnd h
    rw [List.foldl_cons]
    by_cases hx : x = name
    · subst hx
      by_cases h1 : x = changed
      · subst h1
        rw [rescanStep_changed]
        exact ih acc _ g h hg hflag
      · rw [rescanStep_of_unscheduled C changed acc x g h1 hg hflag]
        exact ih acc _ g h hg hflag
    · have hpres : getField (rescanStep C changed acc x) name = some g := by
        rw [rescanStep_getField_ne C changed acc x name (fun hh => hx hh.symm) hC hV]
        exact hg
      exact ih _ _ g hrel' hpres hflag

theorem rescanFold_validates {fs : FormFields} (C : Collaborators)
    (changed : String) (hC : NoSchedTypeValidators C)
    (hVfs : NoSchedValidatorsExcept fs changed)
    (hnd : (fieldNames fs).Nodup) :
    ∀ (names : List String) (acc : FormFields) (name : String) (f : FormField),
      RescanRel fs acc →
      name ∈ names → name ≠ changed →
      getField fs name = some f →
      getField acc name = some f →
      f.isValidationScheduled = true →
      checkIsSkipField fs name = false →
      getField (names.foldl (rescanStep C changed) acc) name =
        some { (executeFieldValidator C fs name (rescanFilteredValue f)).1 with
               isValidationScheduled := false } := by
  intro names
  induction names with
  | nil =>
    intro acc name f _ hmem
    exact absurd hmem (List.not_mem_nil name)
  | cons x rest ih =>
    intro acc name f h hmem hnc hgfs hgacc hflag hskip
    have hV := noSchedExcept_of_cfgRel hVfs h.2
    have hrel' := rescanStep_rescanRel C changed x hC hVfs hnd h
    rw [List.foldl_cons]
    by_cases hx : x = name
    · subst hx
      have hgeq : getField acc x = getField fs x := by rw [hgacc, hgfs]
      have hskipacc : checkIsSkipField acc x = false := by
        rw [checkIsSkipField_congr fs acc x hgeq h.1]
        exact hskip
      rw [rescanStep_of_scheduled C changed acc x f hnc hgacc hflag hC
        (fun f' valFn v fv hgx hval => hV x f' valFn v fv hgx hnc hval)]
      rw [if_neg (by rw [hskipacc]; exact Bool.false_ne_true)]
      have hcongr : (executeFieldValidator C acc x (rescanFilteredValue f)).1 =
          (executeFieldValidator C fs x (rescanFilteredValue f)).1 :=
        executeFieldValidator_fst_congr C fs acc x (rescanFilteredValue f)
          hgeq h.1 (by rw [h.2.1]; exact hnd) hnd
      rw [hcongr]
      exact rescanFold_keeps_entry C changed hC hVfs hnd rest _ x _
        (rescanRel_setField h hnd hgacc
          (executeFieldValidator_fst_config C fs x _ f hgfs)
          (executeFieldValidator_fst_value C fs x _ f hgfs))
        (getField_setField_self acc x _ (mem_fieldNames_of_getField hgacc)) rfl
    · have hmem' : name ∈ rest := by
        rcases List.mem_cons.mp hmem with h' | h'
        · exact absurd h'.symm hx
        · exact h'
      have hpres : getField (rescanStep C changed acc x) name = some f := by
        rw [rescanStep_getField_ne C changed acc x name (fun hh => hx hh.symm) hC hV]
        exact hgacc
      exact ih _ _ f hrel' hmem' hnc hgfs hpres hflag hskip

/-- C9: provided no validator configured on a field other than the
changed one calls `scheduleValidation` (the changed field's own
validator--the one whose scheduling set the flags--is exempt, since the
rescan skips the changed field; a re-scheduling by a rescanned field's
validator would be a new scheduling event re-setting a cleared flag),
every field other than the changed one whose `isValidationScheduled`
flag is set when the rescan starts has its flag cleared by the rescan
regardless of the validation outcome; and--under distinct keys, as a
JavaScript object guarantees--every such field that is not
skip-eligible, however many fields are flagged, ends the rescan in
exactly the state produced by re-validating it synchronously on its
current filtered raw value, with the flag then cleared. -/
theorem c9_scheduled_rescan :
    ∀ (C : Collaborators) (fs : FormFields) (changed : String),
      NoSchedTypeValidators C → NoSchedValidatorsExcept fs changed →
      (∀ (name : String) (f : FormField),
        getField fs name = some f → name ≠ changed →
        f.isValidationScheduled = true →
        ∃ g, getField (triggerScheduledFieldsValidations C fs changed) name = some g ∧
          g.isValidationScheduled = false) ∧
      ((fieldNames fs).Nodup →
        ∀ (name : String) (f : FormField),
        getField fs name = some f → name ≠ changed →
        f.isValidationScheduled = true →
        checkIsSkipField fs name = false →
        getField (triggerScheduledFieldsValidations C fs changed) name =
          some { (executeFieldValidator C fs name (rescanFilteredValue f)).1 with
                 isValidationScheduled := false }) := by
  intro C fs changed hC hV
  constructor
  · intro name f hg hnc hflag
    exact rescanFold_clears C changed hC hV (fieldNames fs) fs name f
      (cfgRel_refl fs) (mem_fieldNames_of_getField hg) hnc hg hflag
  · intro hnd name f hg hnc hflag hskip
    exact rescanFold_validates C changed hC hV hnd (fieldNames fs) fs name f
      (rescanRel_refl fs) (mem_fieldNames_of_getField hg) hnc hg hg hflag hskip

def c9SchedulingValidator : CustomValidator :=
  fun _ _ => (.sync (.ok true), ["password"])

def c9PasswordField : FormField :=
  { config := { fieldType := .string }, isValidationScheduled := true,
    rawValue := .str "pw" }

def c9EmailField : FormField :=
  { config := { fieldType := .string }, isValidationScheduled := true,
    rawValue := .str "e" }

def c9ConfirmField : FormField :=
  { config := { fieldType := .string, validator := some c9SchedulingValidator }
    rawValue := .str "pw2" }

def c9Fields : FormFields :=
  [("password", c9PasswordField), ("email", c9EmailField),
   ("confirmPassword", c9ConfirmField)]

theorem c9_scheduled_rescan_witness :
    getField (triggerScheduledFieldsValidations sampleCollab c9Fields
        "confirmPassword") "password" =
      some { (executeFieldValidator sampleCollab c9Fields "password"
          (rescanFilteredValue c9PasswordField)).1 with
          isValidationScheduled := false } := by
  have hC : NoSchedTypeValidators sampleCollab := fun ty v fv => ⟨rfl, rfl⟩
  have hV : NoSchedValidatorsExcept c9Fields "confirmPassword" := by
    intro n f valFn v fv hg hnc hval
    simp only [c9Fields, getField_cons] at hg
    split_ifs at hg with h1 h2 h3
    · cases Option.some.inj hg
      exact Option.noConfusion hval
    · cases Option.some.inj hg
      exact Option.noConfusion hval
    · exact absurd h3.symm hnc
    · exact Option.noConfusion hg
  exact (c9_scheduled_rescan sampleCollab c9Fields "confirmPassword" hC hV).2
    (by decide) "password" c9PasswordField rfl (by decide) rfl rfl

theorem scheduleFieldValidation_rawValue (fs : FormFields) (a n : String) :
    (getField (scheduleFieldValidation fs a) n).map FormField.rawValue =
      (getField fs n).map FormField.rawValue := by
  unfold scheduleFieldValidation
  cases hg : getField fs a with
  | none => rfl
  | some f =>
    by_cases hn : n = a
    · subst hn
      rw [getField_setField_self fs n _ (mem_fieldNames_of_getField hg), hg]
      rfl
    · rw [getField_setField_ne fs a _ n hn]

theorem applySchedules_rawValue (l : List String) :
    ∀ (fs : FormFields) (n : String),
      (getField (applySchedules fs l) n).map FormField.rawValue =
        (getField fs n).map FormField.rawValue := by
  induction l with
  | nil => intro fs n; rfl
  | cons a t ih =>
    intro fs n
    show (getField (applySchedules (scheduleFieldValidation fs a) t) n).map _ = _
    rw [ih (scheduleFieldValidation fs a) n, scheduleFieldValidation_rawValue]

theorem fieldNames_applySchedules (l : List String) :
    ∀ (fs : FormFields), fieldNames (applySchedules fs l) = fieldNames fs := by
  induction l with
  | nil => intro fs; rfl
  | cons a t ih =>
    intro fs
    show fieldNames (applySchedules (scheduleFieldValidation fs a) t) = _
    rw [ih, fieldNames_scheduleFieldValidation]

theorem executeFieldValidator_snd_rawValue (C : Collaborators) (fs : FormFields)
    (n : String) (v : JSValue) (m : String) :
    (getField (executeFieldValidator C fs n v).2 m).map FormField.rawValue =
      (getField fs m).map FormField.rawValue := by
  unfold executeFieldValidator
  cases getField fs n with
  | none => rfl
  | some field =>
    dsimp only
    split
    · split
      · exact applySchedules_rawValue _ fs m
      · split
        · show (getField (applySchedules (applySchedules fs _) _) m).map _ = _
          rw [applySchedules_rawValue, applySchedules_rawValue]
        · show (getField (applySchedules (applySchedules fs _) _) m).map _ = _
          rw [applySchedules_rawValue, applySchedules_rawValue]
    · exact applySchedules_rawValue _ fs m

theorem executeFieldValidator_snd_names (C : Collaborators) (fs : FormFields)
    (n : String) (v : JSValue) :
    fieldNames (executeFieldValidator C fs n v).2 = fieldNames fs := by
  unfold executeFieldValidator
  cases getField fs n with
  | none => rfl
  | some field =>
    dsimp only
    split
    · split
      · exact fieldNames_applySchedules _ fs
      · split
        · show fieldNames (applySchedules (applySchedules fs _) _) = _
          rw [fieldNames_applySchedules, fieldNames_applySchedules]
        · show fieldNames (applySchedules (applySchedules fs _) _) = _
          rw [fieldNames_applySchedules, fieldNames_applySchedules]
    · exact fieldNames_applySchedules _ fs

theorem skipFold_rawValue :
    ∀ (names : List String) (acc : FormFields) (n : String),
      (getField (names.foldl
          (fun a otherName =>
            if checkIsSkipField a otherName then
              match getField a otherName with
              | some f => setField a otherName (getNextErrorsFreeField f)
              | none => a
            else a) acc) n).map FormField.rawValue =
        (getField acc n).map FormField.rawValue := by
  intro names
  induction names with
  | nil => intro acc n; rfl
  | cons x rest ih =>
    intro acc n
    rw [List.foldl_cons, ih]
    by_cases hskip : checkIsSkipField acc x
    · rw [if_pos hskip]
      cases hg : getField acc x with
      | none => rfl
      | some f =>
        dsimp only
        by_cases hn : n = x
        · subst hn
          rw [getField_setField_self acc n _ (mem_fieldNames_of_getField hg), hg]
          rfl
        · rw [getField_setField_ne acc x _ n hn]
    · rw [if_neg hskip]

theorem processSkippableFields_rawValue (fs : FormFields) (n : String) :
    (getField (processSkippableFields fs) n).map FormField.rawValue =
      (getField fs n).map FormField.rawValue :=
  skipFold_rawValue (fieldNames fs) fs n

theorem rescanStep_rawValue_at_changed (C : Collaborators) (changed : String)
    (acc : FormFields) (x : String) :
    (getField (rescanStep C changed acc x) changed).map FormField.rawValue =
      (getField acc changed).map FormField.rawValue := by
  by_cases hx : x = changed
  · subst hx
    rw [rescanStep_changed]
  · have hne : changed ≠ x := fun hh => hx hh.symm
    unfold rescanStep
    rw [if_neg hx]
    cases hg : getField acc x with
    | none => rfl
    | some f =>
      dsimp only
      cases hf : f.isValidationScheduled with
      | false => rfl
      | true =>
        rw [if_pos rfl]
        by_cases hskip : checkIsSkipField acc x
        · rw [if_pos hskip, hg]
          dsimp only
          rw [getField_setField_ne acc x _ changed hne]
        · rw [if_neg hskip]
          cases hacc1 : getField (setField
              (executeFieldValidator C acc x (rescanFilteredValue f)).2 x
              (executeFieldValidator C acc x (rescanFilteredValue f)).1) x with
          | none =>
            dsimp only
            rw [getField_setField_ne _ x _ changed hne,
              executeFieldValidator_snd_rawValue]
          | some g =>
            dsimp only
            rw [getField_setField_ne _ x _ changed hne,
              getField_setField_ne _ x _ changed hne,
              executeFieldValidator_snd_rawValue]

theorem triggerScheduled_rawValue_at_changed (C : Collaborators)
    (fs : FormFields) (changed : String) :
    (getField (triggerScheduledFieldsValidations C fs changed) changed).map
        FormField.rawValue =
      (getField fs changed).map FormField.rawValue := by
  have H : ∀ (names : List String) (acc : FormFields),
      (getField (names.foldl (rescanStep C changed) acc) changed).map
          FormField.rawValue =
        (getField acc changed).map FormField.rawValue := by
    intro names
    induction names with
    | nil => intro acc; rfl
    | cons x rest ih =>
      intro acc
      rw [List.foldl_cons, ih, rescanStep_rawValue_at_changed]
  exact H (fieldNames fs) fs

theorem dropWhile_head_false (p : Char → Bool) :
    ∀ (l : List Char) (c : Char), (l.dropWhile p).head? = some c → p c = false := by
  intro l
  induction l with
  | nil =>
    intro c h
    exact absurd h (by simp)
  | cons a t ih =>
    intro c h
    by_cases hp : p a
    · rw [List.dropWhile_cons_of_pos hp] at h
      exact ih c h
    · rw [List.dropWhile_cons_of_neg hp] at h
      have hac : a = c := by simpa using h
      subst hac
      exact Bool.of_not_eq_true hp

theorem dropWhile_eq_nil_of_all (p : Char → Bool) :
    ∀ (l : List Char), l.all p = true → l.dropWhile p = [] := by
  intro l
  induction l with
  | nil => intro _; rfl
  | cons a t ih =>
    intro h
    rw [List.all_cons, Bool.and_eq_true] at h
    rw [List.dropWhile_cons_of_pos h.1]
    exact ih h.2

/-- C10: an interactive field receiving a string value through
`getNextFieldsState` has leading whitespace stripped (`trimStart`)
before the filter, validators and storage run, so with no configured
filter the committed `rawValue` is the trim-started string--which never
begins with whitespace--and a string of only whitespace is processed as
the empty string. -/
theorem c10_interactive_trim_start :
    ∀ (C : Collaborators) (fuel : Nat) (fs : FormFields) (name : String)
      (f : FormField) (s : String) (isValidate isFormat : Bool)
      (out : FormFields),
      getField fs name = some f →
      f.config.fieldType.isInteractive = true →
      f.config.filter = none →
      getNextFieldsState C fuel name (.str s) fs isValidate isFormat = some out →
      (∃ g, getField out name = some g ∧ g.rawValue = .str (jsTrimStart s)) ∧
      (∀ c, (jsTrimStart s).data.head? = some c → isJsWhitespace c = false) ∧
      (s.data.all isJsWhitespace = true → jsTrimStart s = "") := by
  intro C fuel fs name f s iv fmt out hget hint hfilter hout
  refine ⟨?_, ?_, ?_⟩
  · unfold getNextFieldsState at hout
    rw [hget] at hout
    dsimp only at hout
    rw [hint] at hout
    rw [hfilter] at hout
    dsimp only at hout
    rw [if_pos rfl] at hout
    simp only [trimStartIfString] at hout
    have hraw : (getField out name).map FormField.rawValue =
        some (.str (jsTrimStart s)) := by
      cases iv with
      | true =>
        rw [if_pos rfl] at hout
        cases hr : resetDependentFields fuel fs name with
        | none =>
          rw [hr] at hout
          exact absurd hout (by simp)
        | some fs1 =>
          rw [hr] at hout
          dsimp only at hout
          cases Option.some.inj hout
          have hnames1 : fieldNames fs1 = fieldNames fs :=
            (resetFuel_resetRel fuel fs name name fs1 hr).1
          have hmem2 : name ∈ fieldNames
              (executeFieldValidator C fs1 name (.str (jsTrimStart s))).2 := by
            rw [executeFieldValidator_snd_names, hnames1]
            exact mem_fieldNames_of_getField hget
          rw [triggerScheduled_rawValue_at_changed,
            processSkippableFields_rawValue,
            getField_setField_self _ name _ hmem2]
          rfl
      | false =>
        rw [if_neg Bool.false_ne_true] at hout
        dsimp only at hout
        cases Option.some.inj hout
        have hmem2 : name ∈ fieldNames fs := mem_fieldNames_of_getField hget
        rw [triggerScheduled_rawValue_at_changed,
          processSkippableFields_rawValue,
          getField_setField_self _ name _ hmem2]
        rfl
    cases hfin : getField out name with
    | none =>
      rw [hfin] at hraw
      exact absurd hraw (by simp)
    | some g =>
      rw [hfin] at hraw
      exact ⟨g, rfl, Option.some.inj hraw⟩
  · intro c h
    exact dropWhile_head_false isJsWhitespace s.data c h
  · intro h
    show String.mk (s.data.dropWhile isJsWhitespace) = ""
    rw [dropWhile_eq_nil_of_all isJsWhitespace s.data h]

def c10Field : FormField :=
  { config := { fieldType := .string }, rawValue := .str "old" }

def c10Fields : FormFields := [("a", c10Field)]

theorem c10_interactive_trim_start_witness :
    ∃ g, getField ((getNextFieldsState sampleCollab 2 "a" (.str "  hi")
        c10Fields true true).getD []) "a" = some g ∧
      g.rawValue = .str (jsTrimStart "  hi") :=
  (c10_interactive_trim_start sampleCollab 2 c10Fields "a" c10Field "  hi"
    true true
    ((getNextFieldsState sampleCollab 2 "a" (.str "  hi") c10Fields true true).getD [])
    rfl rfl rfl rfl).1
